import Mathlib

/-!
Verification development for the `dynamost` DynamoDB client layer.

This file shallowly embeds the core of the library:

* the condition / update expression compilers (`src/dynamo-expressions.ts`):
  reference-context placeholder allocation, recursive condition-tree
  serialization, update serialization;
* the table operation request builders (`src/dynamo-table.ts`): `getPut`,
  `getPatch`, the `upsert` conditional-update construction, and the
  `PageToken` codec (JSON + base64 over UTF-8, modelling the behaviour of
  `JSON.stringify`/`JSON.parse` and Node's `Buffer` for the value shapes a
  continuation cursor can take);
* the batch-write retry loop (`src/batch-write.ts`);
* the write-transaction collector (`src/transaction-manager.ts`).

JavaScript objects are modelled as association lists ordered by insertion,
with assignment semantics given by `objInsert` (overwrite in place when the
key exists, append otherwise).  Machine numbers that matter here (retry
counters, backoff delays, reference counters) are small naturals with no
overflow concerns; JS float arithmetic in the backoff formula
`100 * 2 ** attempt / 2` is exact for the attempt range used and is modelled
as `(100 * 2 ^ attempt) / 2` on naturals (equal for every attempt < 47).
-/

/-! ## Decimal digits codec

`natDigits` mirrors the decimal rendering JavaScript performs when a number
is interpolated into a template literal or serialized by `JSON.stringify`.
The parsing side mirrors the digit scanning done by `JSON.parse`.
-/

/-- A decimal digit character. -/
def digitChar (n : Nat) : Char := Char.ofNat (48 + n)

/-- Fueled digit accumulation (structural, so that it reduces inside the
kernel; the fuel is always sufficient at the call site below). -/
def natDigitsAux : Nat → Nat → List Char
  | 0, _ => []
  | fuel + 1, n =>
    if n < 10 then [digitChar n]
    else natDigitsAux fuel (n / 10) ++ [digitChar (n % 10)]

/-- Decimal digit list of a natural number, most significant first. -/
def natDigits (n : Nat) : List Char := natDigitsAux (n + 1) n

/-- Decimal rendering of a natural number, as a `String`. -/
def natToString (n : Nat) : String := String.mk (natDigits n)

/-- Is the character an ASCII decimal digit? -/
def isDigitChar (c : Char) : Bool := 48 ≤ c.toNat && c.toNat ≤ 57

/-- Numeric value accumulated from a digit list (most significant first). -/
def digitsToNat (ds : List Char) : Nat :=
  ds.foldl (fun acc c => acc * 10 + (c.toNat - 48)) 0

/-- Greedily split a leading run of decimal digits from the input. -/
def takeDigits : List Char → (List Char × List Char)
  | [] => ([], [])
  | c :: rest =>
    if isDigitChar c then
      let (ds, r) := takeDigits rest
      (c :: ds, r)
    else ([], c :: rest)



/-! ## JavaScript object model -/

/-- JS object assignment `obj[k] = v`: overwrite in place when the key is
present, append otherwise. -/
def objInsert {α : Type} (m : List (String × α)) (k : String) (v : α) :
    List (String × α) :=
  match m with
  | [] => [(k, v)]
  | (k', v') :: rest => if k' = k then (k, v) :: rest else (k', v') :: objInsert rest k v

/-- Association-list lookup, mirroring JS property access. -/
def objLookup {α : Type} (m : List (String × α)) (k : String) : Option α :=
  match m with
  | [] => none
  | (k', v) :: rest => if k' = k then some v else objLookup rest k

/-- JS `delete obj[k]`: removes the (unique, in a JS object) entry with key
`k` when present. -/
def objDelete {α : Type} (m : List (String × α)) (k : String) : List (String × α) :=
  match m with
  | [] => []
  | (k', v) :: rest => if k' = k then rest else (k', v) :: objDelete rest k



/-! ## DynamoDB attribute values and records -/

/-- A (simplified but representative) DynamoDB attribute value: string,
integer number, boolean or null. -/
inductive DVal where
  | s (v : String)
  | n (v : Int)
  | b (v : Bool)
  | nullV
  deriving DecidableEq

/-- A stored record / entity: a JS object mapping attribute names to
values. -/
abbrev DRecord := List (String × DVal)

/-! ## Reference context (`createRefContext` in `dynamo-expressions.ts`) -/

/-- The mutable state created by `createRefContext`: the two emitted tables
and the monotonically increasing value-reference counter. -/
structure RefContext where
  names : List (String × String)
  values : List (String × DVal)
  counter : Nat
  deriving DecidableEq

/-- The freshly allocated context (`createRefContext()`). -/
def freshRefContext : RefContext := ⟨[], [], 0⟩

/-- The value placeholder allocated for counter value `n` (`:ref${n}`). -/
def refName (n : Nat) : String := ":ref" ++ natToString n

/-- `getSubjectRef`: the placeholder is `#` followed by the attribute name,
and the mapping is recorded in `ExpressionAttributeNames`. -/
def getSubjectRef (subject : String) (ctx : RefContext) : String × RefContext :=
  let ref := "#" ++ subject
  (ref, { ctx with names := objInsert ctx.names ref subject })

/-- `getObjectRef`: a fresh monotonically numbered placeholder recorded in
`ExpressionAttributeValues`; the counter is then incremented. -/
def getObjectRef (object : DVal) (ctx : RefContext) : String × RefContext :=
  let ref := refName ctx.counter
  (ref, { ctx with values := objInsert ctx.values ref object,
                   counter := ctx.counter + 1 })

/-! ## Condition trees (`DynamoDBCondition`)

A leaf condition object is modelled as the list of operator entries present
on the object, in insertion order (`for (const key in condition)` iterates
string keys in insertion order; `undefined` operator values are skipped by
the `if (!value) continue` guard and therefore simply do not occur in the
list). -/

/-- One operator entry of a leaf condition object, with its operand. -/
inductive CondOp where
  | attributeExists (keys : List String)
  | attributeNotExists (keys : List String)
  | equals (entries : List (String × DVal))
  | notEquals (entries : List (String × DVal))
  | between (entries : List (String × DVal × DVal))
  | beginsWith (entries : List (String × DVal))
  | greaterThan (entries : List (String × DVal))
  | greaterThanOrEqualTo (entries : List (String × DVal))
  | lessThan (entries : List (String × DVal))
  | lessThanOrEqualTo (entries : List (String × DVal))
  deriving DecidableEq

/-- A `DynamoDBCondition`: a leaf operator map, or an `and`/`or`
composite. -/
inductive Cond where
  | base (ops : List CondOp)
  | and (cs : List Cond)
  | or (cs : List Cond)

/-- Serialize the fragments of an existence-style operator
(`attribute_exists(...)` / `attribute_not_exists(...)`). -/
def serializeExistence (fname : String) (keys : List String) (ctx : RefContext) :
    List String × RefContext :=
  match keys with
  | [] => ([], ctx)
  | key :: rest =>
    let (ref, ctx1) := getSubjectRef key ctx
    let (fs, ctx2) := serializeExistence fname rest ctx1
    ((fname ++ "(" ++ ref ++ ")") :: fs, ctx2)

/-- Serialize the fragments of an infix comparison operator
(`#subject OP :refN`). -/
def serializeInfix (opSym : String) (entries : List (String × DVal)) (ctx : RefContext) :
    List String × RefContext :=
  match entries with
  | [] => ([], ctx)
  | (subject, object) :: rest =>
    let (sref, ctx1) := getSubjectRef subject ctx
    let (oref, ctx2) := getObjectRef object ctx1
    let (fs, ctx3) := serializeInfix opSym rest ctx2
    ((sref ++ " " ++ opSym ++ " " ++ oref) :: fs, ctx3)

/-- Serialize the fragments of the `begins-with` operator. -/
def serializeBeginsWith (entries : List (String × DVal)) (ctx : RefContext) :
    List String × RefContext :=
  match entries with
  | [] => ([], ctx)
  | (subject, object) :: rest =>
    let (sref, ctx1) := getSubjectRef subject ctx
    let (oref, ctx2) := getObjectRef object ctx1
    let (fs, ctx3) := serializeBeginsWith rest ctx2
    (("begins_with(" ++ sref ++ ", " ++ oref ++ ")") :: fs, ctx3)

/-- Serialize the fragments of the `between` operator (subject ref first,
then the two object refs, matching template-literal evaluation order). -/
def serializeBetween (entries : List (String × DVal × DVal)) (ctx : RefContext) :
    List String × RefContext :=
  match entries with
  | [] => ([], ctx)
  | (subject, lo, hi) :: rest =>
    let (sref, ctx1) := getSubjectRef subject ctx
    let (loref, ctx2) := getObjectRef lo ctx1
    let (hiref, ctx3) := getObjectRef hi ctx2
    let (fs, ctx4) := serializeBetween rest ctx3
    (("(" ++ sref ++ " BETWEEN " ++ loref ++ " AND " ++ hiref ++ ")") :: fs, ctx4)

/-- The `Serializers` table: fragments of one operator entry. -/
def serializeOp (op : CondOp) (ctx : RefContext) : List String × RefContext :=
  match op with
  | .attributeExists keys => serializeExistence "attribute_exists" keys ctx
  | .attributeNotExists keys => serializeExistence "attribute_not_exists" keys ctx
  | .equals entries => serializeInfix "=" entries ctx
  | .notEquals entries => serializeInfix "<>" entries ctx
  | .between entries => serializeBetween entries ctx
  | .beginsWith entries => serializeBeginsWith entries ctx
  | .greaterThan entries => serializeInfix ">" entries ctx
  | .greaterThanOrEqualTo entries => serializeInfix ">=" entries ctx
  | .lessThan entries => serializeInfix "<" entries ctx
  | .lessThanOrEqualTo entries => serializeInfix "<=" entries ctx

/-- The fragment-accumulation loop of `_serializeCondition` over the
operator entries of one leaf object. -/
def serializeOps (ops : List CondOp) (ctx : RefContext) : List String × RefContext :=
  match ops with
  | [] => ([], ctx)
  | op :: rest =>
    let (fs, ctx1) := serializeOp op ctx
    let (gs, ctx2) := serializeOps rest ctx1
    (fs ++ gs, ctx2)

/-- The join step of `joinConditionsUsing` on the serialized survivors:
a single survivor is returned unchanged; otherwise each survivor is
parenthesized and the results joined with the operator keyword (an empty
survivor list yields the empty string). -/
def joinSerialized (joiner : String) (serialized : List String) : String :=
  match serialized with
  | [s] => s
  | ss => String.intercalate (" " ++ joiner ++ " ") (ss.map (fun s => "(" ++ s ++ ")"))

mutual

/-- `_serializeCondition`: `undefined` is modelled as `none`.  A composite
always produces a string (possibly empty when every child was dropped);
a leaf with no fragments produces `none`. -/
def serializeCond (c : Cond) (ctx : RefContext) : Option String × RefContext :=
  match c with
  | .base ops =>
    let (fs, ctx1) := serializeOps ops ctx
    (if fs.isEmpty then none else some (String.intercalate " AND " fs), ctx1)
  | .and cs =>
    let (ss, ctx1) := serializeCondChildren cs ctx
    (some (joinSerialized "AND" ss), ctx1)
  | .or cs =>
    let (ss, ctx1) := serializeCondChildren cs ctx
    (some (joinSerialized "OR" ss), ctx1)

/-- The `conditions.map(_serializeCondition).filter(Boolean)` step of
`joinConditionsUsing`: serialize every child in order (threading the
context) and keep only the truthy results (dropping `undefined` and the
empty string). -/
def serializeCondChildren (cs : List Cond) (ctx : RefContext) :
    List String × RefContext :=
  match cs with
  | [] => ([], ctx)
  | c :: rest =>
    let (r, ctx1) := serializeCond c ctx
    let (rs, ctx2) := serializeCondChildren rest ctx1
    (match r with
     | none => rs
     | some s => if s = "" then rs else s :: rs, ctx2)

end

/-- `joinConditionsUsing`: serialize the children, drop falsy results, and
join. -/
def joinConditionsUsing (cs : List Cond) (joiner : String) (ctx : RefContext) :
    String × RefContext :=
  let (ss, ctx1) := serializeCondChildren cs ctx
  (joinSerialized joiner ss, ctx1)

/-- The result object of the exported `serializeCondition` (a `Pick` of
`PutCommandInput`); every field can be absent. -/
structure SerializedCondition where
  ConditionExpression : Option String
  ExpressionAttributeNames : Option (List (String × String))
  ExpressionAttributeValues : Option (List (String × DVal))
  deriving DecidableEq

/-- The exported `serializeCondition`: allocate a fresh context, serialize,
and return `{}` when the expression is falsy; otherwise return the
expression together with the name table, and the value table only when it
is non-empty. -/
def serializeCondition (c : Cond) : SerializedCondition :=
  let (e, ctx) := serializeCond c freshRefContext
  match e with
  | none => ⟨none, none, none⟩
  | some s =>
    if s = "" then ⟨none, none, none⟩
    else ⟨some s, some ctx.names,
          if ctx.values.isEmpty then none else some ctx.values⟩

/-! ## Update serialization (`serializeUpdate`) -/

/-- The assignment loop of `_serializeUpdate`: one `#key = :refN` operation
per entry of `update.set`, in iteration order. -/
def serializeSetOperations (set : DRecord) (ctx : RefContext) :
    List String × RefContext :=
  match set with
  | [] => ([], ctx)
  | (key, value) :: rest =>
    let (sref, ctx1) := getSubjectRef key ctx
    let (oref, ctx2) := getObjectRef value ctx1
    let (ops, ctx3) := serializeSetOperations rest ctx2
    ((sref ++ " = " ++ oref) :: ops, ctx3)

/-- `_serializeUpdate`: the `SET` clause over the assignment set. -/
def serializeUpdateExpr (set : DRecord) (ctx : RefContext) : String × RefContext :=
  let (ops, ctx1) := serializeSetOperations set ctx
  ("SET " ++ String.intercalate ", " ops, ctx1)

/-- The result object of the exported `serializeUpdate`:
`UpdateExpression` is always present; the tables are always returned. -/
structure SerializedUpdate where
  UpdateExpression : String
  ConditionExpression : Option String
  ExpressionAttributeNames : List (String × String)
  ExpressionAttributeValues : List (String × DVal)
  deriving DecidableEq

/-- The exported `serializeUpdate`: one fresh shared context; the condition
(when supplied) is serialized first, then the update expression. -/
def serializeUpdate (set : DRecord) (condition : Option Cond) : SerializedUpdate :=
  let (condExpr, ctx1) :=
    match condition with
    | some c => serializeCond c freshRefContext
    | none => (none, freshRefContext)
  let (updateExpr, ctx2) := serializeUpdateExpr set ctx1
  ⟨updateExpr, condExpr, ctx2.names, ctx2.values⟩

/-! ## Semantics of condition trees

DynamoDB evaluates the compiled condition expression against the current
state of the addressed item.  `evalCond` gives that semantics directly on
the structured condition tree: a missing item is the empty record (no
attribute present). -/

/-- Ordering used by the comparison operators: defined for two values of
the same scalar type, false on mixed types (DynamoDB comparisons on
mismatched types do not match). -/
def dvalLt (a b : DVal) : Bool :=
  match a, b with
  | .s x, .s y => x < y
  | .n x, .n y => x < y
  | _, _ => false

/-- Semantics of one operator entry against the current item state. -/
def evalOp (r : DRecord) (op : CondOp) : Bool :=
  match op with
  | .attributeExists keys => keys.all (fun k => (objLookup r k).isSome)
  | .attributeNotExists keys => keys.all (fun k => (objLookup r k).isNone)
  | .equals entries => entries.all (fun e => decide (objLookup r e.1 = some e.2))
  | .notEquals entries =>
    entries.all (fun e =>
      match objLookup r e.1 with
      | some v => decide (v ≠ e.2)
      | none => false)
  | .between entries =>
    entries.all (fun e =>
      match objLookup r e.1 with
      | some v => (dvalLt e.2.1 v || decide (v = e.2.1)) &&
                  (dvalLt v e.2.2 || decide (v = e.2.2))
      | none => false)
  | .beginsWith entries =>
    entries.all (fun e =>
      match objLookup r e.1, e.2 with
      | some (.s v), .s p => p.isPrefixOf v
      | _, _ => false)
  | .greaterThan entries =>
    entries.all (fun e =>
      match objLookup r e.1 with
      | some v => dvalLt e.2 v
      | none => false)
  | .greaterThanOrEqualTo entries =>
    entries.all (fun e =>
      match objLookup r e.1 with
      | some v => dvalLt e.2 v || decide (v = e.2)
      | none => false)
  | .lessThan entries =>
    entries.all (fun e =>
      match objLookup r e.1 with
      | some v => dvalLt v e.2
      | none => false)
  | .lessThanOrEqualTo entries =>
    entries.all (fun e =>
      match objLookup r e.1 with
      | some v => dvalLt v e.2 || decide (v = e.2)
      | none => false)

mutual

/-- Semantics of a condition tree against the current item state:
operator entries of one leaf are AND-ed; composites combine children. -/
def evalCond (r : DRecord) (c : Cond) : Bool :=
  match c with
  | .base ops => ops.all (evalOp r)
  | .and cs => evalCondAll r cs
  | .or cs => evalCondAny r cs

/-- Conjunction over children. -/
def evalCondAll (r : DRecord) (cs : List Cond) : Bool :=
  match cs with
  | [] => true
  | c :: rest => evalCond r c && evalCondAll r rest

/-- Disjunction over children. -/
def evalCondAny (r : DRecord) (cs : List Cond) : Bool :=
  match cs with
  | [] => false
  | c :: rest => evalCond r c || evalCondAny r rest

end

/-! ## Table request builders (`dynamo-table.ts`) -/

/-- The condition list assembled by `DynamoTable.getPut`: an
`attribute-not-exists` guard on the hash key unless `overwrite` is set,
followed by the caller-supplied condition when present.  The serialized
request uses `serializeCondition({ and: conditions })`. -/
def getPutConditions (hashKey : String) (overwrite : Bool) (condition : Option Cond) :
    List Cond :=
  (if overwrite then [] else [.base [.attributeNotExists [hashKey]]]) ++
  (match condition with
   | some c => [c]
   | none => [])

/-- The condition part of the request built by `DynamoTable.getPut`
(shared by `put` and `putTransact`). -/
def getPut (hashKey : String) (overwrite : Bool) (condition : Option Cond) :
    SerializedCondition :=
  serializeCondition (.and (getPutConditions hashKey overwrite condition))

/-- The condition tree passed by `DynamoTable.getPatch` to
`serializeUpdate`: an `attribute-exists` guard on the hash key AND-ed with
the caller-supplied condition (or the empty condition object `{}`). -/
def getPatchCondition (hashKey : String) (condition : Option Cond) : Cond :=
  .and [.base [.attributeExists [hashKey]], condition.getD (.base [])]

/-- The update request built by `DynamoTable.getPatch` (shared by `patch`
and `patchTransact`). -/
def getPatch (hashKey : String) (set : DRecord) (condition : Option Cond) :
    SerializedUpdate :=
  serializeUpdate set (some (getPatchCondition hashKey condition))

/-- The write-time condition object built inside `DynamoTable.upsert`:
when a record existed at read time, `{ equals: existing,
'attribute-not-exists': Object.keys(updated).filter(k => !Object.keys(existing).includes(k)) }`;
otherwise `{ 'attribute-not-exists': [hashKey] }`.  `updated` is the
proposed record after the hash-key strip. -/
def upsertCondition (hashKey : String) (existing : Option DRecord)
    (updated : DRecord) : Cond :=
  match existing with
  | some e =>
    .base [.equals e,
           .attributeNotExists
             ((updated.map Prod.fst).filter
               (fun k => !((e.map Prod.fst).contains k)))]
  | none => .base [.attributeNotExists [hashKey]]

/-- The hash-key strip step of `upsert`
(`delete updated[this.config.keys.hash]`), applied to the record returned
by the modification function.  Only the hash key is deleted. -/
def upsertStrippedRecord (hashKey : String) (modified : DRecord) : DRecord :=
  objDelete modified hashKey

/-- The keys of the compiled `SET` assignment set of an upsert: the
iteration order of `update.set`, which is the stripped record. -/
def upsertAssignmentKeys (hashKey : String) (modified : DRecord) : List String :=
  (upsertStrippedRecord hashKey modified).map Prod.fst

/-- The serialized conditional update built by one iteration of
`DynamoTable.upsert` (the `serializeUpdate({...})` argument of
`client.update`). -/
def upsertRequest (hashKey : String) (existing : Option DRecord)
    (modified : DRecord) : SerializedUpdate :=
  let updated := upsertStrippedRecord hashKey modified
  serializeUpdate updated (some (upsertCondition hashKey existing updated))

/-! ## Batched write executor (`batch-write.ts`)

`retryBatchWrite` is modelled with the network client replaced by a script:
the n-th element of `script` is the `UnprocessedItems` field returned by
the n-th `batchWrite` call (`none` models an absent field; an exhausted
script also models responses with no unprocessed items).  The model
records, alongside the outcome, the request of every call issued and every
backoff delay awaited (in milliseconds). -/

/-- `BatchWriteCommandInput.RequestItems`: table name to write requests
(request payloads are opaque and modelled as naturals). -/
abbrev RequestMap := List (String × List Nat)

/-- The `maxAttempts` constant of `retryBatchWrite`. -/
def batchMaxAttempts : Nat := 5

/-- The backoff delay awaited before the retry at the given attempt:
`100 * 2 ** attempt / 2` milliseconds (exact in JS floats for this range,
and an integer for every attempt). -/
def batchDelayMs (attempt : Nat) : Nat := (100 * 2 ^ attempt) / 2

/-- The exhausted-retries error message
(`Batch write returned some unprocessed items after ${attempt} attempts`). -/
def batchExhaustedMsg (attempt : Nat) : String :=
  "Batch write returned some unprocessed items after " ++ natToString attempt ++
  " attempts"

/-- `retryBatchWrite`: gives up when the attempt counter has reached
`maxAttempts`; otherwise issues the write, terminates when the response
reports no unprocessed items, and retries exactly the unprocessed subset
with an incremented attempt counter after the backoff delay.  Returns the
list of requests issued and the delays awaited. -/
def retryBatchWrite (script : List (Option RequestMap)) (request : RequestMap)
    (attempt : Nat) : Except String (List RequestMap × List Nat) :=
  if attempt ≥ batchMaxAttempts then .error (batchExhaustedMsg attempt)
  else
    match script with
    | [] => .ok ([request], [])
    | response :: rest =>
      match response with
      | none => .ok ([request], [])
      | some unprocessed =>
        if unprocessed.isEmpty then .ok ([request], [])
        else
          match retryBatchWrite rest unprocessed (attempt + 1) with
          | .ok (calls, delays) =>
            .ok (request :: calls, batchDelayMs attempt :: delays)
          | .error e => .error e

/-! ## Write-transaction collector (`transaction-manager.ts`)

`TransactionManager.run` is modelled with the callback replaced by the list
of writes it registers through `addWrite` plus its return value, and the
network client replaced by a flag saying whether `transactWrite` succeeds.
Write items are opaque and modelled as naturals. -/

/-- The empty-transaction error message. -/
def emptyTransactionMsg : String := "No writes were added to the transaction"

/-- The observable outcome of one `TransactionManager.run` call. -/
structure RunOutcome where
  /-- The returned value, or the raised error message. -/
  result : Except String Nat
  /-- The item lists passed to `client.transactWrite`, one per call. -/
  transactCalls : List (List Nat)
  /-- The accumulated write list left in the manager afterwards. -/
  finalWrites : List Nat

/-- `TransactionManager.run`: the callback appends `registered` to the
accumulated `writes` list and returns `retVal`; if the resulting list is
non-empty, exactly one `transactWrite` is attempted and the list is cleared
in a `finally` whether the commit succeeded or raised; if it is empty, the
empty-transaction error is raised without any network call. -/
def transactionManagerRun (writes0 registered : List Nat) (retVal : Nat)
    (commitOk : Bool) : RunOutcome :=
  let writes := writes0 ++ registered
  if writes.length > 0 then
    { result := if commitOk then .ok retVal else .error "transactWrite failed"
      transactCalls := [writes]
      finalWrites := [] }
  else
    { result := .error emptyTransactionMsg
      transactCalls := []
      finalWrites := writes }

/-! ## Page token codec (`PageToken` in `dynamo-table.ts`)

`PageToken.encode` is `Buffer.from(JSON.stringify(data)).toString('base64')`
for a present cursor, `undefined` otherwise; `PageToken.decode` is
`JSON.parse(Buffer.from(token, 'base64').toString('utf8'))` for a present
token.  A continuation cursor (DynamoDB `LastEvaluatedKey`) is a flat
object mapping key-attribute names to scalar values; the representable
cursors are modelled as association lists of strings and integer numbers.
The platform collaborators (`JSON.stringify` / `JSON.parse` for this value
shape, UTF-8, base64) are modelled as real executable functions below. -/

/-- Opening brace character (written via its code point). -/
def lbrace : Char := Char.ofNat 123

/-- Closing brace character (written via its code point). -/
def rbrace : Char := Char.ofNat 125

/-- Lowercase hexadecimal digit, as emitted by `JSON.stringify` in
`\u00xx` escapes. -/
def hexDigitChar (n : Nat) : Char :=
  if n < 10 then Char.ofNat (48 + n) else Char.ofNat (87 + n)

/-- Hexadecimal digit value accepted by `JSON.parse` in `\uXXXX`. -/
def hexVal (c : Char) : Option Nat :=
  if 48 ≤ c.toNat ∧ c.toNat ≤ 57 then some (c.toNat - 48)
  else if 97 ≤ c.toNat ∧ c.toNat ≤ 102 then some (c.toNat - 87)
  else if 65 ≤ c.toNat ∧ c.toNat ≤ 70 then some (c.toNat - 55)
  else none

/-- `JSON.stringify` escaping of one string character: `"` and `\` are
backslash-escaped, the named control escapes are used for 8/9/10/12/13,
any other control character becomes `\u00xx`, and everything else is
emitted verbatim. -/
def escapeChar (c : Char) : List Char :=
  if c = '"' then ['\\', '"']
  else if c = '\\' then ['\\', '\\']
  else if c.toNat = 8 then ['\\', 'b']
  else if c.toNat = 9 then ['\\', 't']
  else if c.toNat = 10 then ['\\', 'n']
  else if c.toNat = 12 then ['\\', 'f']
  else if c.toNat = 13 then ['\\', 'r']
  else if c.toNat < 32 then
    ['\\', 'u', '0', '0', hexDigitChar (c.toNat / 16), hexDigitChar (c.toNat % 16)]
  else [c]

/-- `JSON.stringify` escaping of a string body. -/
def escapeList : List Char → List Char
  | [] => []
  | c :: cs => escapeChar c ++ escapeList cs

/-- `JSON.parse` string-body scanning, after the opening quote: consumes
up to and including the closing quote, resolving escapes.  (Surrogate-pair
`\u` escapes are not modelled; `JSON.stringify` only emits `\u00xx`.) -/
def parseJString : List Char → Option (List Char × List Char)
  | [] => none
  | c :: rest =>
    if c = '"' then some ([], rest)
    else if c = '\\' then
      match rest with
      | [] => none
      | e :: rest2 =>
        if e = '"' then (parseJString rest2).map (fun p => ('"' :: p.1, p.2))
        else if e = '\\' then (parseJString rest2).map (fun p => ('\\' :: p.1, p.2))
        else if e = '/' then (parseJString rest2).map (fun p => ('/' :: p.1, p.2))
        else if e = 'b' then (parseJString rest2).map (fun p => (Char.ofNat 8 :: p.1, p.2))
        else if e = 'f' then (parseJString rest2).map (fun p => (Char.ofNat 12 :: p.1, p.2))
        else if e = 'n' then (parseJString rest2).map (fun p => (Char.ofNat 10 :: p.1, p.2))
        else if e = 'r' then (parseJString rest2).map (fun p => (Char.ofNat 13 :: p.1, p.2))
        else if e = 't' then (parseJString rest2).map (fun p => (Char.ofNat 9 :: p.1, p.2))
        else if e = 'u' then
          match rest2 with
          | h1 :: h2 :: h3 :: h4 :: rest3 =>
            match hexVal h1, hexVal h2, hexVal h3, hexVal h4 with
            | some a, some b, some c2, some d =>
              let n := ((a * 16 + b) * 16 + c2) * 16 + d
              if n < 55296 ∨ 57343 < n then
                (parseJString rest3).map (fun p => (Char.ofNat n :: p.1, p.2))
              else none
            | _, _, _, _ => none
          | _ => none
        else none
    else if c.toNat < 32 then none
    else (parseJString rest).map (fun p => (c :: p.1, p.2))

/-- `JSON.stringify` of an integer number (JS renders safe integers in
plain decimal). -/
def intChars (i : Int) : List Char :=
  if i < 0 then '-' :: natDigits i.natAbs else natDigits i.toNat

/-- `JSON.parse` number scanning, restricted to the integers our
representable cursors contain. -/
def parseJInt (l : List Char) : Option (Int × List Char) :=
  match l with
  | [] => none
  | c :: rest =>
    if c = '-' then
      let (ds, r) := takeDigits rest
      if ds.isEmpty then none else some (-(digitsToNat ds : Int), r)
    else
      let (ds, r) := takeDigits l
      if ds.isEmpty then none else some ((digitsToNat ds : Int), r)

/-- A scalar attribute value of a representable continuation cursor. -/
inductive JPrim where
  | s (v : String)
  | n (v : Int)
  deriving DecidableEq

/-- A representable continuation cursor: a flat JS object mapping attribute
names to scalar values, in insertion order. -/
abbrev Cursor := List (String × JPrim)

/-- `JSON.stringify` of one scalar value. -/
def stringifyJPrim : JPrim → List Char
  | .s str => '"' :: (escapeList str.data ++ ['"'])
  | .n i => intChars i

/-- `JSON.parse` of one scalar value. -/
def parseJPrim (l : List Char) : Option (JPrim × List Char) :=
  match l with
  | [] => none
  | c :: rest =>
    if c = '"' then (parseJString rest).map (fun p => (JPrim.s (String.mk p.1), p.2))
    else if c = '-' ∨ isDigitChar c then
      (parseJInt l).map (fun p => (JPrim.n p.1, p.2))
    else none

/-- `JSON.stringify` of one `key: value` member. -/
def stringifyEntry (e : String × JPrim) : List Char :=
  '"' :: (escapeList e.1.data ++ ('"' :: ':' :: stringifyJPrim e.2))

/-- `JSON.stringify` member list, comma-separated. -/
def stringifyEntries : Cursor → List Char
  | [] => []
  | [e] => stringifyEntry e
  | e :: rest => stringifyEntry e ++ (',' :: stringifyEntries rest)

/-- `JSON.stringify` of a cursor object. -/
def stringifyCursor (cur : Cursor) : List Char :=
  lbrace :: (stringifyEntries cur ++ [rbrace])

/-- `JSON.parse` member-list scanning (fuel-indexed; one unit of fuel per
member suffices, and the caller passes the input length). -/
def parseEntries (fuel : Nat) (l : List Char) : Option (Cursor × List Char) :=
  match fuel with
  | 0 => none
  | fuel + 1 =>
    match l with
    | [] => none
    | c :: rest =>
      if c = '"' then
        match parseJString rest with
        | none => none
        | some (k, r1) =>
          match r1 with
          | [] => none
          | c2 :: r2 =>
            if c2 = ':' then
              match parseJPrim r2 with
              | none => none
              | some (v, r3) =>
                match r3 with
                | [] => none
                | c3 :: r4 =>
                  if c3 = ',' then
                    (parseEntries fuel r4).map
                      (fun p => ((String.mk k, v) :: p.1, p.2))
                  else if c3 = rbrace then some ([(String.mk k, v)], r4)
                  else none
            else none
      else none

/-- `JSON.parse` of a cursor object (the whole input must be consumed). -/
def parseCursor (l : List Char) : Option Cursor :=
  match l with
  | [] => none
  | c :: rest =>
    if c = lbrace then
      match rest with
      | [] => none
      | c2 :: r2 =>
        if c2 = rbrace then (if r2.isEmpty then some [] else none)
        else
          match parseEntries l.length rest with
          | some (es, r) => if r.isEmpty then some es else none
          | none => none
    else none

/-! ### UTF-8 (the `Buffer.from(string)` / `toString('utf8')` steps) -/

/-- UTF-8 encoding of one unicode scalar value. -/
def utf8EncodeChar (c : Char) : List Nat :=
  let n := c.toNat
  if n < 128 then [n]
  else if n < 2048 then [192 + n / 64, 128 + n % 64]
  else if n < 65536 then [224 + n / 4096, 128 + (n / 64) % 64, 128 + n % 64]
  else [240 + n / 262144, 128 + (n / 4096) % 64, 128 + (n / 64) % 64, 128 + n % 64]

/-- UTF-8 encoding of a string body. -/
def utf8Encode : List Char → List Nat
  | [] => []
  | c :: cs => utf8EncodeChar c ++ utf8Encode cs

/-- Scalar value of a two-byte sequence (header byte `b`, continuation in
`rest`), rejecting truncated, malformed and overlong forms. -/
def utf8Dec2 (b : Nat) (rest : List Nat) : Option Nat :=
  match rest with
  | b2 :: _ =>
    if 128 ≤ b2 ∧ b2 < 192 then
      let n := (b - 192) * 64 + (b2 - 128)
      if 128 ≤ n then some n else none
    else none
  | [] => none

/-- Scalar value of a three-byte sequence, rejecting truncated, malformed,
overlong and surrogate forms. -/
def utf8Dec3 (b : Nat) (rest : List Nat) : Option Nat :=
  match rest with
  | b2 :: b3 :: _ =>
    if (128 ≤ b2 ∧ b2 < 192) ∧ (128 ≤ b3 ∧ b3 < 192) then
      let n := (b - 224) * 4096 + (b2 - 128) * 64 + (b3 - 128)
      if 2048 ≤ n ∧ (n < 55296 ∨ 57343 < n) then some n else none
    else none
  | _ => none

/-- Scalar value of a four-byte sequence, rejecting truncated, malformed,
overlong and out-of-range forms. -/
def utf8Dec4 (b : Nat) (rest : List Nat) : Option Nat :=
  match rest with
  | b2 :: b3 :: b4 :: _ =>
    if (128 ≤ b2 ∧ b2 < 192) ∧ (128 ≤ b3 ∧ b3 < 192) ∧ (128 ≤ b4 ∧ b4 < 192) then
      let n := (b - 240) * 262144 + (b2 - 128) * 4096 + (b3 - 128) * 64 + (b4 - 128)
      if 65536 ≤ n ∧ n < 1114112 then some n else none
    else none
  | _ => none

/-- Strict UTF-8 decoding (rejecting truncated, overlong and surrogate
forms; a garbled token never arises from an encoded one). -/
def utf8Decode : List Nat → Option (List Char)
  | [] => some []
  | b :: rest =>
    if b < 128 then (utf8Decode rest).map (Char.ofNat b :: ·)
    else if b < 192 then none
    else if b < 224 then
      match utf8Dec2 b rest with
      | some n => (utf8Decode rest.tail).map (Char.ofNat n :: ·)
      | none => none
    else if b < 240 then
      match utf8Dec3 b rest with
      | some n => (utf8Decode rest.tail.tail).map (Char.ofNat n :: ·)
      | none => none
    else if b < 248 then
      match utf8Dec4 b rest with
      | some n => (utf8Decode rest.tail.tail.tail).map (Char.ofNat n :: ·)
      | none => none
    else none
  termination_by l => l.length
  decreasing_by
    · simp only [List.length_cons]
      omega
    · simp only [List.length_cons]
      have := List.length_tail rest
      omega
    · simp only [List.length_cons]
      have h1 := List.length_tail rest
      have h2 := List.length_tail rest.tail
      omega
    · simp only [List.length_cons]
      have h1 := List.length_tail rest
      have h2 := List.length_tail rest.tail
      have h3 := List.length_tail rest.tail.tail
      omega

/-! ### Base64 (the `toString('base64')` / `Buffer.from(_, 'base64')`
steps) -/

/-- The base64 alphabet. -/
def b64Alphabet : List Char :=
  ['A', 'B', 'C', 'D', 'E', 'F', 'G', 'H', 'I', 'J', 'K', 'L', 'M',
   'N', 'O', 'P', 'Q', 'R', 'S', 'T', 'U', 'V', 'W', 'X', 'Y', 'Z',
   'a', 'b', 'c', 'd', 'e', 'f', 'g', 'h', 'i', 'j', 'k', 'l', 'm',
   'n', 'o', 'p', 'q', 'r', 's', 't', 'u', 'v', 'w', 'x', 'y', 'z',
   '0', '1', '2', '3', '4', '5', '6', '7', '8', '9', '+', '/']

/-- The alphabet character for a sextet. -/
def b64Char (n : Nat) : Char := (b64Alphabet.get? n).getD '*'

/-- The sextet of an alphabet character. -/
def b64Val (c : Char) : Option Nat := b64Alphabet.indexOf? c

/-- Base64 encoding with `=` padding, three input bytes per four output
characters. -/
def b64Encode : List Nat → List Char
  | [] => []
  | [a] => [b64Char (a / 4), b64Char (a % 4 * 16), '=', '=']
  | [a, b] => [b64Char (a / 4), b64Char (a % 4 * 16 + b / 16), b64Char (b % 16 * 4), '=']
  | a :: b :: c :: rest =>
    b64Char (a / 4) :: b64Char (a % 4 * 16 + b / 16) ::
    b64Char (b % 16 * 4 + c / 64) :: b64Char (c % 64) :: b64Encode rest

/-- Strict base64 decoding (padding only at the very end, zero low bits in
the final partial sextet). -/
def b64Decode : List Char → Option (List Nat)
  | [] => some []
  | c1 :: c2 :: c3 :: c4 :: rest =>
    match b64Val c1, b64Val c2 with
    | some v1, some v2 =>
      if c3 = '=' then
        if c4 = '=' ∧ rest.isEmpty ∧ v2 % 16 = 0 then some [v1 * 4 + v2 / 16]
        else none
      else
        match b64Val c3 with
        | none => none
        | some v3 =>
          if c4 = '=' then
            if rest.isEmpty ∧ v3 % 4 = 0 then
              some [v1 * 4 + v2 / 16, v2 % 16 * 16 + v3 / 4]
            else none
          else
            match b64Val c4 with
            | none => none
            | some v4 =>
              (b64Decode rest).map
                (fun bs => (v1 * 4 + v2 / 16) :: (v2 % 16 * 16 + v3 / 4) ::
                           (v3 % 4 * 64 + v4) :: bs)
    | _, _ => none
  | _ => none

/-! ### The codec itself -/

/-- `PageToken.encode`: an absent cursor encodes to an absent token (a
cursor object is always truthy); a present cursor is JSON-stringified,
UTF-8 encoded and base64 encoded. -/
def pageTokenEncode : Option Cursor → Option String
  | none => none
  | some cur => some (String.mk (b64Encode (utf8Encode (stringifyCursor cur))))

/-- `PageToken.decode`: an absent (or empty, hence falsy) token decodes to
an absent cursor; otherwise the token is base64 decoded, UTF-8 decoded and
JSON-parsed.  A garbled token is reported as an error (in JS, `JSON.parse`
throws there; the spec leaves foreign tokens as undefined behaviour). -/
def pageTokenDecode : Option String → Except String (Option Cursor)
  | none => .ok none
  | some t =>
    if t.data.isEmpty then .ok none
    else
      match b64Decode t.data with
      | none => .error "invalid base64 token"
      | some bytes =>
        match utf8Decode bytes with
        | none => .error "invalid utf8 in token"
        | some chars =>
          match parseCursor chars with
          | none => .error "SyntaxError"
          | some cur => .ok (some cur)

/-! ## Measures on condition trees (for stating the compiler properties) -/

/-- Number of operand occurrences (leaves) of one operator entry. -/
def condOpLeafCount : CondOp → Nat
  | .attributeExists keys => keys.length
  | .attributeNotExists keys => keys.length
  | .equals entries => entries.length
  | .notEquals entries => entries.length
  | .between entries => entries.length
  | .beginsWith entries => entries.length
  | .greaterThan entries => entries.length
  | .greaterThanOrEqualTo entries => entries.length
  | .lessThan entries => entries.length
  | .lessThanOrEqualTo entries => entries.length

mutual

/-- Number of leaves of a condition tree. -/
def condLeafCount : Cond → Nat
  | .base ops => (ops.map condOpLeafCount).sum
  | .and cs => condListLeafCount cs
  | .or cs => condListLeafCount cs

/-- Number of leaves of a list of condition trees. -/
def condListLeafCount : List Cond → Nat
  | [] => 0
  | c :: rest => condLeafCount c + condListLeafCount rest

end

/-- The attribute names referenced by one operator entry, in reference
order. -/
def condOpSubjects : CondOp → List String
  | .attributeExists keys => keys
  | .attributeNotExists keys => keys
  | .equals entries => entries.map Prod.fst
  | .notEquals entries => entries.map Prod.fst
  | .between entries => entries.map Prod.fst
  | .beginsWith entries => entries.map Prod.fst
  | .greaterThan entries => entries.map Prod.fst
  | .greaterThanOrEqualTo entries => entries.map Prod.fst
  | .lessThan entries => entries.map Prod.fst
  | .lessThanOrEqualTo entries => entries.map Prod.fst

mutual

/-- The attribute names referenced by a condition tree, in reference
order. -/
def condSubjects : Cond → List String
  | .base ops => condOpsSubjects ops
  | .and cs => condListSubjects cs
  | .or cs => condListSubjects cs

/-- The attribute names referenced by the entries of one leaf object. -/
def condOpsSubjects : List CondOp → List String
  | [] => []
  | op :: rest => condOpSubjects op ++ condOpsSubjects rest

/-- The attribute names referenced by a list of condition trees. -/
def condListSubjects : List Cond → List String
  | [] => []
  | c :: rest => condSubjects c ++ condListSubjects rest

end

/-- Number of value-reference allocations made by one operator entry
(existence operators allocate none; `between` allocates two per entry). -/
def condOpValueCount : CondOp → Nat
  | .attributeExists _ => 0
  | .attributeNotExists _ => 0
  | .equals entries => entries.length
  | .notEquals entries => entries.length
  | .between entries => 2 * entries.length
  | .beginsWith entries => entries.length
  | .greaterThan entries => entries.length
  | .greaterThanOrEqualTo entries => entries.length
  | .lessThan entries => entries.length
  | .lessThanOrEqualTo entries => entries.length

mutual

/-- Number of value-reference allocations made by a condition tree. -/
def condValueCount : Cond → Nat
  | .base ops => condOpsValueCount ops
  | .and cs => condListValueCount cs
  | .or cs => condListValueCount cs

/-- Number of value-reference allocations made by one leaf object. -/
def condOpsValueCount : List CondOp → Nat
  | [] => 0
  | op :: rest => condOpValueCount op + condOpsValueCount rest

/-- Number of value-reference allocations made by a list of trees. -/
def condListValueCount : List Cond → Nat
  | [] => 0
  | c :: rest => condValueCount c + condListValueCount rest

end

/-- The name-table insertions performed for a list of referenced attribute
names (in order). -/
def insertSubjects (subjects : List String) (m : List (String × String)) :
    List (String × String) :=
  match subjects with
  | [] => m
  | sub :: rest => insertSubjects rest (objInsert m ("#" ++ sub) sub)

/-- A table key schema (`KeySchema<Entity>` in `dynamo-table.ts`). -/
structure TableKeySchema where
  hash : String
  range : Option String

/-- The key schema of the repository's own test table
(`UserTableDefinition`): hash key `id`, range key `createdAt`. -/
def userTableKeys : TableKeySchema := ⟨"id", some "createdAt"⟩
/-- Freshness invariant of the value table: every recorded placeholder has
an index below the current counter. -/
def valsFresh (ctx : RefContext) : Prop :=
  ∀ key ∈ ctx.values.map Prod.fst, ∃ m < ctx.counter, key = refName m

/-- How one serialization step evolves the reference context: the name
table receives one insertion per referenced attribute name (in order), the
counter advances by the number of value references, and (from a fresh-keyed
table) the value table grows by exactly the consecutively numbered
placeholders. -/
def ctxEvolves (ctx ctx' : RefContext) (subjects : List String) (vcount : Nat) :
    Prop :=
  ctx'.names = insertSubjects subjects ctx.names ∧
  ctx'.counter = ctx.counter + vcount ∧
  (valsFresh ctx →
    ctx'.values.map Prod.fst =
      ctx.values.map Prod.fst ++ (List.range' ctx.counter vcount).map refName ∧
    valsFresh ctx')


theorem digitChar_isDigit {n : Nat} (h : n < 10) : isDigitChar (digitChar n) = true := by
  interval_cases n <;> decide

theorem digitChar_toNat {n : Nat} (h : n < 10) : (digitChar n).toNat = 48 + n := by
  interval_cases n <;> decide

theorem natDigitsAux_fuel_irrelevant (fuel fuel' n : Nat) (h : n < fuel)
    (h' : n < fuel') : natDigitsAux fuel n = natDigitsAux fuel' n := by
  induction fuel generalizing fuel' n with
  | zero => omega
  | succ fuel ih =>
    cases fuel' with
    | zero => omega
    | succ fuel' =>
      simp only [natDigitsAux]
      split
    <;> first
      | rfl
      | exact congrArg (· ++ [digitChar (n % 10)]) (ih fuel' (n / 10) (by omega) (by omega))

theorem natDigits_step (n : Nat) (h : ¬n < 10) :
    natDigits n = natDigits (n / 10) ++ [digitChar (n % 10)] := by
  show natDigitsAux (n + 1) n = _
  rw [natDigitsAux, if_neg h]
  exact congrArg (· ++ [digitChar (n % 10)])
    (natDigitsAux_fuel_irrelevant n (n / 10 + 1) (n / 10) (by omega) (by omega))

theorem natDigits_lt (n : Nat) (h : n < 10) : natDigits n = [digitChar n] := by
  show natDigitsAux (n + 1) n = _
  rw [natDigitsAux, if_pos h]

theorem natDigits_all_digits (n : Nat) : ∀ c ∈ natDigits n, isDigitChar c = true := by
  induction n using Nat.strong_induction_on with
  | _ n ih =>
    intro c hc
    by_cases h : n < 10
    · rw [natDigits_lt n h] at hc
      simp only [List.mem_singleton] at hc
      exact hc ▸ digitChar_isDigit h
    · rw [natDigits_step n h, List.mem_append] at hc
      rcases hc with hc | hc
      · exact ih (n / 10) (Nat.div_lt_self (by omega) (by omega)) c hc
      · simp only [List.mem_singleton] at hc
        exact hc ▸ digitChar_isDigit (Nat.mod_lt n (by omega))

theorem natDigits_ne_nil (n : Nat) : natDigits n ≠ [] := by
  by_cases h : n < 10
  · rw [natDigits_lt n h]; simp
  · rw [natDigits_step n h]; simp

theorem digitsToNat_append (ds es : List Char) :
    digitsToNat (ds ++ es) =
      es.foldl (fun acc c => acc * 10 + (c.toNat - 48)) (digitsToNat ds) := by
  simp [digitsToNat, List.foldl_append]

theorem digitsToNat_natDigits (n : Nat) : digitsToNat (natDigits n) = n := by
  induction n using Nat.strong_induction_on with
  | _ n ih =>
    by_cases h : n < 10
    · rw [natDigits_lt n h]
      simp [digitsToNat, digitChar_toNat h]
    · rw [natDigits_step n h, digitsToNat_append,
          ih (n / 10) (Nat.div_lt_self (by omega) (by omega))]
      simp only [List.foldl_cons, List.foldl_nil, digitChar_toNat (Nat.mod_lt n (by omega))]
      omega

theorem takeDigits_append_of_digits (ds rest : List Char)
    (hds : ∀ c ∈ ds, isDigitChar c = true)
    (hrest : ∀ c, rest.head? = some c → isDigitChar c = false) :
    takeDigits (ds ++ rest) = (ds, rest) := by
  induction ds with
  | nil =>
    cases rest with
    | nil => rfl
    | cons c r =>
      have := hrest c rfl
      simp [takeDigits, this]
  | cons c ds ih =>
    have hc := hds c (by simp)
    have ih' := ih (fun d hd => hds d (by simp [hd]))
    simp only [List.cons_append, takeDigits, hc, if_true, List.append_eq, ih']

theorem objInsert_mem_keys {α : Type} (m : List (String × α)) (k : String) (v : α)
    (k' : String) :
    (k' ∈ (objInsert m k v).map Prod.fst) ↔ (k' ∈ m.map Prod.fst ∨ k' = k) := by
  induction m with
  | nil => simp [objInsert]
  | cons p rest ih =>
    obtain ⟨k'', v''⟩ := p
    by_cases hk : k'' = k
    · subst hk
      simp only [objInsert, if_pos rfl, ite_true, List.map_cons, List.mem_cons]
      tauto
    · simp only [objInsert, if_neg hk, List.map_cons, List.mem_cons, ih]
      tauto

theorem objInsert_keys_nodup {α : Type} (m : List (String × α)) (k : String) (v : α)
    (h : (m.map Prod.fst).Nodup) : ((objInsert m k v).map Prod.fst).Nodup := by
  induction m with
  | nil => simp [objInsert]
  | cons p rest ih =>
    obtain ⟨k', v'⟩ := p
    simp only [List.map_cons, List.nodup_cons] at h
    by_cases hk : k' = k
    · subst hk
      simp only [objInsert, if_pos rfl, ite_true, List.map_cons, List.nodup_cons]
      exact h
    · simp only [objInsert, if_neg hk, List.map_cons, List.nodup_cons]
      refine ⟨?_, ih h.2⟩
      rw [objInsert_mem_keys]
      rintro (h1 | h1)
      · exact h.1 h1
      · exact hk h1
/-! ## C3: batch-write retry protocol -/

/-- C3: for every chunk whose response reports unprocessed items, the
executor retries exactly the unprocessed subset with an incremented
attempt counter after a backoff delay of `100 * 2 ^ attempt / 2`
milliseconds (attempt starting at 0); when the attempt counter reaches the
maximum of 5 while unprocessed items remain, it raises a terminal error
whose message states that 5 attempts were made; a response with no
unprocessed items terminates the chunk successfully. -/
theorem retryBatchWrite_retry_protocol
    (script : List (Option RequestMap)) (request u : RequestMap) (attempt : Nat) :
    (attempt < 5 → u ≠ [] →
      retryBatchWrite (some u :: script) request attempt =
        match retryBatchWrite script u (attempt + 1) with
        | .ok (calls, delays) =>
          .ok (request :: calls, 100 * 2 ^ attempt / 2 :: delays)
        | .error e => .error e)
    ∧ (attempt < 5 →
      retryBatchWrite (none :: script) request attempt = .ok ([request], []))
    ∧ (attempt < 5 →
      retryBatchWrite (some [] :: script) request attempt = .ok ([request], []))
    ∧ retryBatchWrite script request 5 =
        .error "Batch write returned some unprocessed items after 5 attempts"
    := by
  refine ⟨?_, ?_, ?_, ?_⟩
  · intro hlt hne
    rw [retryBatchWrite.eq_def]
    rw [if_neg (by simp [batchMaxAttempts]; omega)]
    simp only [List.isEmpty_eq_true, hne, if_false, batchDelayMs]
  · intro hlt
    rw [retryBatchWrite.eq_def, if_neg (by simp [batchMaxAttempts]; omega)]
  · intro hlt
    rw [retryBatchWrite.eq_def, if_neg (by simp [batchMaxAttempts]; omega)]
    simp
  · rw [retryBatchWrite.eq_def, if_pos (by simp [batchMaxAttempts])]
    rfl

/-- Witness for C3 at concrete inputs: one response with a 10-item
unprocessed subset, retried after a 50 ms backoff and terminating
successfully, and the exhausted case at attempt 5. -/
theorem retryBatchWrite_retry_protocol_witness :
    (0 < 5 ∧ ([("t", [1, 2, 3, 4, 5, 6, 7, 8, 9, 10])] : RequestMap) ≠ []) ∧
    retryBatchWrite [some [("t", [1, 2, 3, 4, 5, 6, 7, 8, 9, 10])], none]
        [("t", List.range 25)] 0 =
      .ok ([[("t", List.range 25)], [("t", [1, 2, 3, 4, 5, 6, 7, 8, 9, 10])]], [50]) ∧
    retryBatchWrite [] [("t", [1])] 5 =
      .error "Batch write returned some unprocessed items after 5 attempts" := by
  refine ⟨⟨by decide, by decide⟩, ?_, ?_⟩
  · have h := (retryBatchWrite_retry_protocol [none]
      [("t", List.range 25)] [("t", [1, 2, 3, 4, 5, 6, 7, 8, 9, 10])] 0).1
      (by decide) (by decide)
    rw [h]
    rfl
  · exact (retryBatchWrite_retry_protocol [] [("t", [1])] [] 5).2.2.2

/-! ## C8: transaction collector -/

/-- C8: a run whose callback registers zero writes (on a collector whose
accumulated list is empty) raises the empty-transaction error without
issuing any network call; whenever the accumulated list is non-empty,
exactly one commit is attempted and the list is cleared afterwards whether
the commit succeeded or raised, so a subsequent run on the same collector
behaves like a run on a fresh one. -/
theorem transactionManagerRun_spec (writes0 registered : List Nat) (retVal : Nat)
    (commitOk : Bool) :
    (writes0 = [] → registered = [] →
      transactionManagerRun writes0 registered retVal commitOk =
        ⟨.error "No writes were added to the transaction", [], []⟩)
    ∧ (writes0 ++ registered ≠ [] →
      (transactionManagerRun writes0 registered retVal commitOk).transactCalls =
          [writes0 ++ registered] ∧
      (transactionManagerRun writes0 registered retVal commitOk).finalWrites = [])
    ∧ (writes0 ++ registered ≠ [] →
      ∀ registered2 retVal2 commitOk2,
        transactionManagerRun
            (transactionManagerRun writes0 registered retVal commitOk).finalWrites
            registered2 retVal2 commitOk2 =
          transactionManagerRun [] registered2 retVal2 commitOk2) := by
  refine ⟨?_, ?_, ?_⟩
  · intro h0 hr
    subst h0; subst hr
    rfl
  · intro hne
    have hlen : (writes0 ++ registered).length > 0 := List.length_pos.mpr hne
    constructor <;> (simp only [transactionManagerRun]; rw [if_pos hlen])
  · intro hne registered2 retVal2 commitOk2
    have hlen : (writes0 ++ registered).length > 0 := List.length_pos.mpr hne
    have h1 : (transactionManagerRun writes0 registered retVal commitOk).finalWrites = [] := by
      simp only [transactionManagerRun]
      rw [if_pos hlen]
    rw [h1]

/-- Witness for C8 at concrete inputs: the empty run raises without a
network call; a failing commit still clears the list; reuse behaves like a
fresh collector. -/
theorem transactionManagerRun_spec_witness :
    transactionManagerRun [] [] 7 true =
      ⟨.error "No writes were added to the transaction", [], []⟩ ∧
    (([] : List Nat) ++ [3] ≠ [] ∧
      (transactionManagerRun [] [3] 7 false).transactCalls = [[3]] ∧
      (transactionManagerRun [] [3] 7 false).finalWrites = []) ∧
    transactionManagerRun (transactionManagerRun [] [3] 7 false).finalWrites
        [4] 8 true =
      transactionManagerRun [] [4] 8 true := by
  refine ⟨?_, ⟨by decide, ?_⟩, ?_⟩
  · exact (transactionManagerRun_spec [] [] 7 true).1 rfl rfl
  · exact (transactionManagerRun_spec [] [3] 7 false).2.1 (by decide)
  · exact (transactionManagerRun_spec [] [3] 7 false).2.2 (by decide) [4] 8 true

/-! ## Compiler helper lemmas -/

theorem serializeOp_of_leafCount_zero (op : CondOp) (ctx : RefContext)
    (h : condOpLeafCount op = 0) : serializeOp op ctx = ([], ctx) := by
  cases op <;>
    (simp only [condOpLeafCount, List.length_eq_zero] at h
     subst h
     rfl)

theorem serializeOps_of_leafCount_zero (ops : List CondOp) (ctx : RefContext)
    (h : (ops.map condOpLeafCount).sum = 0) : serializeOps ops ctx = ([], ctx) := by
  induction ops generalizing ctx with
  | nil => rfl
  | cons op rest ih =>
    simp only [List.map_cons, List.sum_cons, Nat.add_eq_zero] at h
    simp [serializeOps, serializeOp_of_leafCount_zero op ctx h.1, ih ctx h.2]

mutual

theorem serializeCond_of_leafCount_zero (c : Cond) (ctx : RefContext)
    (h : condLeafCount c = 0) :
    (serializeCond c ctx).2 = ctx ∧
    ((serializeCond c ctx).1 = none ∨ (serializeCond c ctx).1 = some "") := by
  match c with
  | .base ops =>
    have h0 : (ops.map condOpLeafCount).sum = 0 := h
    simp [serializeCond, serializeOps_of_leafCount_zero ops ctx h0]
  | .and cs =>
    have h0 : condListLeafCount cs = 0 := h
    have hc := serializeCondChildren_of_leafCount_zero cs ctx h0
    simp [serializeCond, hc, joinSerialized]
    rfl
  | .or cs =>
    have h0 : condListLeafCount cs = 0 := h
    have hc := serializeCondChildren_of_leafCount_zero cs ctx h0
    simp [serializeCond, hc, joinSerialized]
    rfl

theorem serializeCondChildren_of_leafCount_zero (cs : List Cond) (ctx : RefContext)
    (h : condListLeafCount cs = 0) : serializeCondChildren cs ctx = ([], ctx) := by
  match cs with
  | [] => rfl
  | c :: rest =>
    have h1 : condLeafCount c = 0 := by
      have : condLeafCount c + condListLeafCount rest = 0 := h
      omega
    have h2 : condListLeafCount rest = 0 := by
      have : condLeafCount c + condListLeafCount rest = 0 := h
      omega
    have hc := serializeCond_of_leafCount_zero c ctx h1
    have hr := serializeCondChildren_of_leafCount_zero rest (serializeCond c ctx).2 h2
    rw [hc.1] at hr
    simp only [serializeCondChildren]
    rcases hc.2 with h3 | h3
    · rw [(Prod.ext_iff.mpr ⟨h3, hc.1⟩ : serializeCond c ctx = (none, ctx))]
      simpa using hr
    · rw [(Prod.ext_iff.mpr ⟨h3, hc.1⟩ : serializeCond c ctx = (some "", ctx))]
      simpa using hr

end

/-! ## C5: zero-leaf trees serialize to an absent condition -/

/-- C5: every condition tree with zero leaves — including existence
operators applied to empty attribute lists and `and`/`or` composites all of
whose children compile to absent — serializes to an absent condition
expression with no name/value tables (not an error, not an empty-string
expression). -/
theorem serializeCondition_zero_leaves (c : Cond) (h : condLeafCount c = 0) :
    serializeCondition c = ⟨none, none, none⟩ := by
  have hc := serializeCond_of_leafCount_zero c freshRefContext h
  rcases hc.2 with h1 | h1
  · rw [serializeCondition,
        (Prod.ext_iff.mpr ⟨h1, hc.1⟩ :
          serializeCond c freshRefContext = (none, freshRefContext))]
  · rw [serializeCondition,
        (Prod.ext_iff.mpr ⟨h1, hc.1⟩ :
          serializeCond c freshRefContext = (some "", freshRefContext))]
    simp

/-- Witness for C5: a tree whose only leaves-carrying entries are an
existence operator on an empty list, an empty `or` composite and an empty
leaf object. -/
theorem serializeCondition_zero_leaves_witness :
    condLeafCount (Cond.and [Cond.base [CondOp.attributeExists []],
        Cond.or [], Cond.base []]) = 0 ∧
    serializeCondition (Cond.and [Cond.base [CondOp.attributeExists []],
        Cond.or [], Cond.base []]) = ⟨none, none, none⟩ :=
  ⟨by decide,
   serializeCondition_zero_leaves
     (Cond.and [Cond.base [CondOp.attributeExists []], Cond.or [], Cond.base []])
     (by decide)⟩

/-! ## C6: `and`/`or` composite serialization -/

/-- C6: in an `and`/`or` composite, children that compile to absent
(`undefined` or the empty string) are dropped; a single surviving fragment
is returned unchanged with no added parentheses; two or more surviving
fragments are each wrapped in parentheses and joined with the composite's
keyword. -/
theorem joinConditionsUsing_spec (joiner : String) :
    (∀ c rest ctx ctx1,
      (serializeCond c ctx = (none, ctx1) ∨ serializeCond c ctx = (some "", ctx1)) →
      serializeCondChildren (c :: rest) ctx = serializeCondChildren rest ctx1)
    ∧ (∀ c rest ctx ctx1 s, serializeCond c ctx = (some s, ctx1) → s ≠ "" →
      serializeCondChildren (c :: rest) ctx =
        (s :: (serializeCondChildren rest ctx1).1,
         (serializeCondChildren rest ctx1).2))
    ∧ (∀ cs ctx s ctx1, serializeCondChildren cs ctx = ([s], ctx1) →
      joinConditionsUsing cs joiner ctx = (s, ctx1))
    ∧ (∀ cs ctx ss ctx1, serializeCondChildren cs ctx = (ss, ctx1) → 2 ≤ ss.length →
      joinConditionsUsing cs joiner ctx =
        (String.intercalate (" " ++ joiner ++ " ")
          (ss.map (fun f => "(" ++ f ++ ")")), ctx1))
    ∧ (∀ cs ctx, serializeCond (.and cs) ctx =
        (some (joinConditionsUsing cs "AND" ctx).1,
         (joinConditionsUsing cs "AND" ctx).2))
    ∧ (∀ cs ctx, serializeCond (.or cs) ctx =
        (some (joinConditionsUsing cs "OR" ctx).1,
         (joinConditionsUsing cs "OR" ctx).2)) := by
  refine ⟨?_, ?_, ?_, ?_, ?_, ?_⟩
  · intro c rest ctx ctx1 h
    rcases h with h | h <;> simp [serializeCondChildren, h]
  · intro c rest ctx ctx1 s h hne
    simp [serializeCondChildren, h, hne]
  · intro cs ctx s ctx1 h
    simp [joinConditionsUsing, h, joinSerialized]
  · intro cs ctx ss ctx1 h hlen
    match ss, hlen with
    | s1 :: s2 :: rest, _ =>
      simp [joinConditionsUsing, h, joinSerialized]
  · intro cs ctx
    simp [serializeCond, joinConditionsUsing]
  · intro cs ctx
    simp [serializeCond, joinConditionsUsing]

/-- Witness for C6 at concrete inputs: an absent child is dropped and the
single survivor is returned without parentheses; two survivors are each
parenthesized and joined with the keyword. -/
theorem joinConditionsUsing_spec_witness :
    joinConditionsUsing [Cond.base [], Cond.base [CondOp.attributeExists ["a"]]]
        "AND" freshRefContext =
      ("attribute_exists(#a)", ⟨[("#a", "a")], [], 0⟩) ∧
    joinConditionsUsing [Cond.base [CondOp.attributeExists ["a"]],
        Cond.base [CondOp.attributeExists ["b"]]] "OR" freshRefContext =
      ("(attribute_exists(#a)) OR (attribute_exists(#b))",
       ⟨[("#a", "a"), ("#b", "b")], [], 0⟩) := by
  constructor
  · exact (joinConditionsUsing_spec "AND").2.2.1
      [Cond.base [], Cond.base [CondOp.attributeExists ["a"]]]
      freshRefContext "attribute_exists(#a)" ⟨[("#a", "a")], [], 0⟩ (by decide)
  · have h := (joinConditionsUsing_spec "OR").2.2.2.1
      [Cond.base [CondOp.attributeExists ["a"]],
       Cond.base [CondOp.attributeExists ["b"]]]
      freshRefContext ["attribute_exists(#a)", "attribute_exists(#b)"]
      ⟨[("#a", "a"), ("#b", "b")], [], 0⟩ (by decide) (by decide)
    rw [h]
    decide

/-! ## C7 infrastructure: reference-context characterization -/

theorem objInsert_idem {α : Type} (m : List (String × α)) (k : String) (v : α) :
    objInsert (objInsert m k v) k v = objInsert m k v := by
  induction m with
  | nil => simp [objInsert]
  | cons p rest ih =>
    obtain ⟨k', v'⟩ := p
    by_cases hk : k' = k
    · subst hk
      simp [objInsert]
    · simp [objInsert, hk, ih]

theorem objInsert_keys_of_not_mem {α : Type} (m : List (String × α)) (k : String)
    (v : α) (h : k ∉ m.map Prod.fst) :
    (objInsert m k v).map Prod.fst = m.map Prod.fst ++ [k] := by
  induction m with
  | nil => simp [objInsert]
  | cons p rest ih =>
    obtain ⟨k', v'⟩ := p
    simp only [List.map_cons, List.mem_cons] at h
    push_neg at h
    simp [objInsert, Ne.symm h.1, ih h.2]

theorem natToString_injective : Function.Injective natToString := by
  intro m n h
  have : digitsToNat (natDigits m) = digitsToNat (natDigits n) := by
    have hd : natDigits m = natDigits n := congrArg String.data h
    rw [hd]
  rwa [digitsToNat_natDigits, digitsToNat_natDigits] at this

theorem refName_injective : Function.Injective refName := by
  intro m n h
  have hd : (refName m).data = (refName n).data := congrArg String.data h
  simp only [refName, String.data_append] at hd
  have := List.append_cancel_left hd
  exact natToString_injective (String.ext this)

theorem valsFresh_fresh : valsFresh freshRefContext := by
  intro key h
  simp [freshRefContext] at h

theorem getObjectRef_spec (v : DVal) (ctx : RefContext) (h : valsFresh ctx) :
    (getObjectRef v ctx).1 = refName ctx.counter ∧
    (getObjectRef v ctx).2.names = ctx.names ∧
    (getObjectRef v ctx).2.counter = ctx.counter + 1 ∧
    (getObjectRef v ctx).2.values.map Prod.fst =
      ctx.values.map Prod.fst ++ [refName ctx.counter] ∧
    valsFresh (getObjectRef v ctx).2 := by
  have hnm : refName ctx.counter ∉ ctx.values.map Prod.fst := by
    intro hmem
    obtain ⟨m, hm, he⟩ := h _ hmem
    have := refName_injective he.symm
    omega
  refine ⟨rfl, rfl, rfl, objInsert_keys_of_not_mem _ _ _ hnm, ?_⟩
  intro key hk
  simp only [getObjectRef] at hk
  rw [objInsert_keys_of_not_mem _ _ _ hnm] at hk
  rw [List.mem_append] at hk
  rcases hk with hk | hk
  · obtain ⟨m, hm, he⟩ := h _ hk
    exact ⟨m, by simp [getObjectRef]; omega, he⟩
  · simp only [List.mem_singleton] at hk
    exact ⟨ctx.counter, by simp [getObjectRef], hk⟩

theorem insertSubjects_append (s1 s2 : List String) (m : List (String × String)) :
    insertSubjects (s1 ++ s2) m = insertSubjects s2 (insertSubjects s1 m) := by
  induction s1 generalizing m with
  | nil => rfl
  | cons a s1 ih => simp [insertSubjects, ih]

theorem ctxEvolves_refl (ctx : RefContext) : ctxEvolves ctx ctx [] 0 := by
  refine ⟨rfl, rfl, fun h => ⟨by simp, h⟩⟩

theorem ctxEvolves_trans {ctx ctx' ctx'' : RefContext} {s1 s2 : List String}
    {v1 v2 : Nat} (h1 : ctxEvolves ctx ctx' s1 v1)
    (h2 : ctxEvolves ctx' ctx'' s2 v2) :
    ctxEvolves ctx ctx'' (s1 ++ s2) (v1 + v2) := by
  obtain ⟨hn1, hc1, hv1⟩ := h1
  obtain ⟨hn2, hc2, hv2⟩ := h2
  refine ⟨by rw [hn2, hn1, insertSubjects_append], by omega, ?_⟩
  intro hf
  obtain ⟨hveq1, hf1⟩ := hv1 hf
  obtain ⟨hveq2, hf2⟩ := hv2 hf1
  refine ⟨?_, hf2⟩
  rw [hveq2, hveq1, hc1, List.append_assoc, ← List.map_append]
  congr 1
  congr 1
  have hr := List.range'_append ctx.counter v1 v2 1
  simp only [Nat.one_mul] at hr
  rw [Nat.add_comm v1 v2, ← hr]

theorem getSubjectRef_evolves (sub : String) (ctx : RefContext) :
    ctxEvolves ctx (getSubjectRef sub ctx).2 [sub] 0 := by
  refine ⟨rfl, rfl, fun h => ⟨by simp [getSubjectRef], ?_⟩⟩
  intro key hk
  exact h key hk

theorem getObjectRef_evolves (v : DVal) (ctx : RefContext) :
    ctxEvolves ctx (getObjectRef v ctx).2 [] 1 := by
  refine ⟨rfl, rfl, fun h => ?_⟩
  have hs := getObjectRef_spec v ctx h
  refine ⟨?_, hs.2.2.2.2⟩
  rw [hs.2.2.2.1]
  simp [List.range']

theorem serializeExistence_evolves (fname : String) (keys : List String)
    (ctx : RefContext) :
    ctxEvolves ctx (serializeExistence fname keys ctx).2 keys 0 := by
  induction keys generalizing ctx with
  | nil => exact ctxEvolves_refl ctx
  | cons key rest ih =>
    have h1 := getSubjectRef_evolves key ctx
    have h2 := ih (getSubjectRef key ctx).2
    have := ctxEvolves_trans h1 h2
    simpa [serializeExistence] using this

theorem serializeInfix_evolves (sym : String) (entries : List (String × DVal))
    (ctx : RefContext) :
    ctxEvolves ctx (serializeInfix sym entries ctx).2 (entries.map Prod.fst)
      entries.length := by
  induction entries generalizing ctx with
  | nil => exact ctxEvolves_refl ctx
  | cons e rest ih =>
    obtain ⟨subject, object⟩ := e
    have h1 := getSubjectRef_evolves subject ctx
    have h2 := getObjectRef_evolves object (getSubjectRef subject ctx).2
    have h3 := ih (getObjectRef object (getSubjectRef subject ctx).2).2
    have := ctxEvolves_trans (ctxEvolves_trans h1 h2) h3
    simpa [serializeInfix, Nat.add_comm] using this

theorem serializeBeginsWith_evolves (entries : List (String × DVal))
    (ctx : RefContext) :
    ctxEvolves ctx (serializeBeginsWith entries ctx).2 (entries.map Prod.fst)
      entries.length := by
  induction entries generalizing ctx with
  | nil => exact ctxEvolves_refl ctx
  | cons e rest ih =>
    obtain ⟨subject, object⟩ := e
    have h1 := getSubjectRef_evolves subject ctx
    have h2 := getObjectRef_evolves object (getSubjectRef subject ctx).2
    have h3 := ih (getObjectRef object (getSubjectRef subject ctx).2).2
    have := ctxEvolves_trans (ctxEvolves_trans h1 h2) h3
    simpa [serializeBeginsWith, Nat.add_comm] using this

theorem serializeBetween_evolves (entries : List (String × DVal × DVal))
    (ctx : RefContext) :
    ctxEvolves ctx (serializeBetween entries ctx).2 (entries.map Prod.fst)
      (2 * entries.length) := by
  induction entries generalizing ctx with
  | nil => exact ctxEvolves_refl ctx
  | cons e rest ih =>
    obtain ⟨subject, lo, hi⟩ := e
    have h1 := getSubjectRef_evolves subject ctx
    have h2 := getObjectRef_evolves lo (getSubjectRef subject ctx).2
    have h3 := getObjectRef_evolves hi
      (getObjectRef lo (getSubjectRef subject ctx).2).2
    have h4 := ih (getObjectRef hi (getObjectRef lo (getSubjectRef subject ctx).2).2).2
    have := ctxEvolves_trans (ctxEvolves_trans (ctxEvolves_trans h1 h2) h3) h4
    have hgoal : 1 + 1 + 2 * rest.length = 2 * (rest.length + 1) := by omega
    simpa [serializeBetween, hgoal] using this

theorem serializeOp_evolves (op : CondOp) (ctx : RefContext) :
    ctxEvolves ctx (serializeOp op ctx).2 (condOpSubjects op)
      (condOpValueCount op) := by
  cases op with
  | attributeExists keys => exact serializeExistence_evolves _ keys ctx
  | attributeNotExists keys => exact serializeExistence_evolves _ keys ctx
  | equals entries => exact serializeInfix_evolves _ entries ctx
  | notEquals entries => exact serializeInfix_evolves _ entries ctx
  | between entries => exact serializeBetween_evolves entries ctx
  | beginsWith entries => exact serializeBeginsWith_evolves entries ctx
  | greaterThan entries => exact serializeInfix_evolves _ entries ctx
  | greaterThanOrEqualTo entries => exact serializeInfix_evolves _ entries ctx
  | lessThan entries => exact serializeInfix_evolves _ entries ctx
  | lessThanOrEqualTo entries => exact serializeInfix_evolves _ entries ctx

theorem serializeOps_evolves (ops : List CondOp) (ctx : RefContext) :
    ctxEvolves ctx (serializeOps ops ctx).2 (condOpsSubjects ops)
      (condOpsValueCount ops) := by
  induction ops generalizing ctx with
  | nil => exact ctxEvolves_refl ctx
  | cons op rest ih =>
    have h1 := serializeOp_evolves op ctx
    have h2 := ih (serializeOp op ctx).2
    have := ctxEvolves_trans h1 h2
    simpa [serializeOps, condOpsSubjects, condOpsValueCount] using this

mutual

theorem serializeCond_evolves (c : Cond) (ctx : RefContext) :
    ctxEvolves ctx (serializeCond c ctx).2 (condSubjects c) (condValueCount c) := by
  match c with
  | .base ops =>
    have h := serializeOps_evolves ops ctx
    simpa [serializeCond, condSubjects, condValueCount] using h
  | .and cs =>
    have h := serializeCondChildren_evolves cs ctx
    simpa [serializeCond, condSubjects, condValueCount] using h
  | .or cs =>
    have h := serializeCondChildren_evolves cs ctx
    simpa [serializeCond, condSubjects, condValueCount] using h

theorem serializeCondChildren_evolves (cs : List Cond) (ctx : RefContext) :
    ctxEvolves ctx (serializeCondChildren cs ctx).2 (condListSubjects cs)
      (condListValueCount cs) := by
  match cs with
  | [] => exact ctxEvolves_refl ctx
  | c :: rest =>
    have h1 := serializeCond_evolves c ctx
    have h2 := serializeCondChildren_evolves rest (serializeCond c ctx).2
    have := ctxEvolves_trans h1 h2
    simpa [serializeCondChildren, condListSubjects, condListValueCount] using this

end

theorem insertSubjects_nodup (subjects : List String) (m : List (String × String))
    (h : (m.map Prod.fst).Nodup) :
    ((insertSubjects subjects m).map Prod.fst).Nodup := by
  induction subjects generalizing m with
  | nil => exact h
  | cons s rest ih =>
    exact ih (objInsert m ("#" ++ s) s) (objInsert_keys_nodup m _ _ h)

theorem insertSubjects_mem (subjects : List String) (m : List (String × String))
    (k : String) :
    k ∈ (insertSubjects subjects m).map Prod.fst ↔
      k ∈ m.map Prod.fst ∨ ∃ s ∈ subjects, k = "#" ++ s := by
  induction subjects generalizing m with
  | nil => simp [insertSubjects]
  | cons s rest ih =>
    simp only [insertSubjects, ih, objInsert_mem_keys, List.mem_cons]
    constructor
    · rintro ((h | h) | ⟨t, ht, he⟩)
      · exact Or.inl h
      · exact Or.inr ⟨s, Or.inl rfl, h⟩
      · exact Or.inr ⟨t, Or.inr ht, he⟩
    · rintro (h | ⟨t, (rfl | ht), he⟩)
      · exact Or.inl (Or.inl h)
      · exact Or.inl (Or.inr he)
      · exact Or.inr ⟨t, ht, he⟩

theorem subjectRef_injective (s t : String) (h : "#" ++ s = "#" ++ t) : s = t := by
  have hd : ("#" ++ s).data = ("#" ++ t).data := congrArg String.data h
  simp only [String.data_append] at hd
  exact String.ext (List.append_cancel_left hd)

/-! ## C7: reference allocation discipline -/

/-- C7: within one reference context the name-reference operation is
idempotent per attribute name — re-referencing an attribute returns the
same placeholder and leaves the context unchanged — and the compiled name
table holds exactly one entry per referenced attribute name; by contrast
every value-reference call allocates a fresh monotonically numbered
placeholder (the counter advances by one each call), so the compiled value
table has one distinct consecutively numbered placeholder per value-bearing
operand occurrence, even for repeated values. -/
theorem refContext_allocation_spec (c : Cond) :
    (∀ sub ctx, getSubjectRef sub ((getSubjectRef sub ctx).2) =
        getSubjectRef sub ctx) ∧
    (∀ v ctx, (getObjectRef v ctx).1 = refName ctx.counter ∧
        (getObjectRef v ctx).2.counter = ctx.counter + 1) ∧
    (((serializeCond c freshRefContext).2.names.map Prod.fst).Nodup ∧
     ∀ s, ("#" ++ s) ∈ (serializeCond c freshRefContext).2.names.map Prod.fst ↔
        s ∈ condSubjects c) ∧
    ((serializeCond c freshRefContext).2.values.map Prod.fst =
        (List.range (condValueCount c)).map refName ∧
     ((serializeCond c freshRefContext).2.values.map Prod.fst).Nodup) := by
  have hev := serializeCond_evolves c freshRefContext
  obtain ⟨hn, hc, hv⟩ := hev
  obtain ⟨hveq, -⟩ := hv valsFresh_fresh
  refine ⟨?_, ?_, ?_, ?_⟩
  · intro sub ctx
    simp [getSubjectRef, objInsert_idem]
  · intro v ctx
    exact ⟨rfl, rfl⟩
  · constructor
    · rw [hn]
      exact insertSubjects_nodup _ _ (by simp [freshRefContext])
    · intro s
      rw [hn, insertSubjects_mem]
      simp only [freshRefContext, List.map_nil, List.not_mem_nil, false_or]
      constructor
      · rintro ⟨t, ht, he⟩
        rwa [subjectRef_injective s t he]
      · intro hs
        exact ⟨s, hs, rfl⟩
  · have heq : (serializeCond c freshRefContext).2.values.map Prod.fst =
        (List.range (condValueCount c)).map refName := by
      rw [hveq]
      simp [freshRefContext, List.range_eq_range']
    refine ⟨heq, ?_⟩
    rw [heq]
    exact (List.nodup_range _).map refName_injective

/-- Witness-style check of C7 is not needed (the statement has no
hypotheses); the repeated-name / repeated-value behaviour is nevertheless
visible on the concrete tree used in the development examples. -/
theorem refContext_allocation_example :
    (serializeCond (Cond.base [CondOp.equals [("a", DVal.n 1), ("a", DVal.n 1)],
        CondOp.attributeExists ["a"]]) freshRefContext).2.names = [("#a", "a")] ∧
    (serializeCond (Cond.base [CondOp.equals [("a", DVal.n 1), ("a", DVal.n 1)],
        CondOp.attributeExists ["a"]]) freshRefContext).2.values =
      [(":ref0", DVal.n 1), (":ref1", DVal.n 1)] := by
  constructor <;> decide

/-! ## Helpers for the request-builder claims -/

theorem stringAppend_ne_empty (a b : String) (h : a.data ≠ []) : a ++ b ≠ "" := by
  intro he
  have hd := congrArg String.data he
  rw [String.data_append] at hd
  have : a.data = [] := (List.append_eq_nil.mp hd).1
  exact h this

/-- A single-element `and` composite compiles exactly as its child alone
(the single-survivor path of `joinConditionsUsing`), in every case of the
child's own serialization. -/
theorem intercalateSingleton (s x : String) : s.intercalate [x] = x := rfl

theorem serializeCondition_and_single (c : Cond) :
    serializeCondition (Cond.and [c]) = serializeCondition c := by
  rcases hsc : serializeCond c freshRefContext with ⟨r, ctx1⟩
  match r with
  | none =>
    have hchildren : serializeCondChildren [c] freshRefContext = ([], ctx1) := by
      simp [serializeCondChildren, hsc]
    have hand : serializeCond (Cond.and [c]) freshRefContext = (some "", ctx1) := by
      simp only [serializeCond, hchildren]
      rfl
    rw [serializeCondition, hand, serializeCondition, hsc]
    simp
  | some s =>
    by_cases hs : s = ""
    · subst hs
      have hchildren : serializeCondChildren [c] freshRefContext = ([], ctx1) := by
        simp [serializeCondChildren, hsc]
      have hand : serializeCond (Cond.and [c]) freshRefContext = (some "", ctx1) := by
        simp only [serializeCond, hchildren]
        rfl
      rw [serializeCondition, hand, serializeCondition, hsc]
    · have hchildren : serializeCondChildren [c] freshRefContext = ([s], ctx1) := by
        simp [serializeCondChildren, hsc, hs]
      have hand : serializeCond (Cond.and [c]) freshRefContext = (some s, ctx1) := by
        simp only [serializeCond, hchildren]
        rfl
      rw [serializeCondition, hand, serializeCondition, hsc]

/-! ## C9: put does not silently overwrite -/

/-- C9: unless `overwrite` is set, `getPut` AND-s an
`attribute-not-exists` guard on the table's hash key with any
caller-supplied condition, and the resulting write-time condition
evaluates to false against any stored record that has the hash key
attribute (so the put fails with the conditional-check-failed error rather
than overwriting); with `overwrite` set, only the caller-supplied
condition (when present) is compiled. -/
theorem getPut_spec (hashKey : String) (c0 : Cond) (cond : Option Cond)
    (r : DRecord) :
    (getPutConditions hashKey false cond =
      Cond.base [CondOp.attributeNotExists [hashKey]] :: cond.toList)
    ∧ ((objLookup r hashKey).isSome →
      evalCond r (Cond.and (getPutConditions hashKey false cond)) = false)
    ∧ (getPut hashKey true (some c0) = serializeCondition c0)
    ∧ (getPut hashKey true none = ⟨none, none, none⟩) := by
  refine ⟨?_, ?_, ?_, ?_⟩
  · cases cond <;> rfl
  · intro h
    obtain ⟨v, hv⟩ := Option.isSome_iff_exists.mp h
    cases cond <;>
      simp [getPutConditions, evalCond, evalCondAll, evalOp, hv]
  · exact serializeCondition_and_single c0
  · show serializeCondition (Cond.and (getPutConditions hashKey true none)) = _
    have h0 : getPutConditions hashKey true none = [] := rfl
    rw [h0]
    decide

/-- Witness for C9: a record with the hash key attribute present makes the
default put condition evaluate to false. -/
theorem getPut_spec_witness :
    (objLookup [("id", DVal.s "u1"), ("account", DVal.s "a")] "id").isSome = true ∧
    evalCond [("id", DVal.s "u1"), ("account", DVal.s "a")]
      (Cond.and (getPutConditions "id" false none)) = false :=
  ⟨by decide,
   (getPut_spec "id" (Cond.base []) none
     [("id", DVal.s "u1"), ("account", DVal.s "a")]).2.1 (by decide)⟩

/-! ## C10: patch never creates a record -/

/-- C10: `getPatch` (used by both `patch` and `patchTransact`)
unconditionally AND-s an `attribute-exists` guard on the table's hash key
with any caller-supplied condition (the absent condition becomes the empty
leaf `{}` and is dropped by the compiler), so the compiled condition is
always present and evaluates to false against a missing record (the empty
attribute state) — the patch fails with the conditional-check-failed error
and never creates a new record. -/
theorem getPatch_spec (hashKey : String) (set : DRecord) (cond : Option Cond) :
    (getPatchCondition hashKey cond =
      Cond.and [Cond.base [CondOp.attributeExists [hashKey]],
                cond.getD (Cond.base [])])
    ∧ (getPatch hashKey set cond =
      serializeUpdate set (some (getPatchCondition hashKey cond)))
    ∧ (evalCond [] (getPatchCondition hashKey cond) = false)
    ∧ ((getPatch hashKey set none).ConditionExpression =
      some ("attribute_exists(" ++ ("#" ++ hashKey) ++ ")")) := by
  refine ⟨rfl, rfl, ?_, ?_⟩
  · cases cond <;>
      simp [getPatchCondition, evalCond, evalCondAll, evalOp, objLookup]
  · have hne : "attribute_exists(" ++ ("#" ++ hashKey) ++ ")" ≠ "" := by
      intro h
      have hd := congrArg String.data h
      simp only [String.data_append] at hd
      have h1 := (List.append_eq_nil.mp hd).1
      have h2 := (List.append_eq_nil.mp h1).1
      exact absurd h2 (by decide)
    simp [getPatch, serializeUpdate, getPatchCondition, serializeCond,
          serializeCondChildren, serializeOps, serializeOp, serializeExistence,
          getSubjectRef, joinSerialized, intercalateSingleton, hne]

/-! ## C1: the upsert write-time condition -/

/-- C1: when a record existed at read time, the write-time condition
compiled by `upsert` holds on a current item state exactly when every
attribute of the record read still has its read value AND every attribute
present in the proposed (stripped) record but absent from the existing one
does not exist; when no record existed at read time, it holds exactly when
the hash key attribute does not exist.  The serialized request compiles
precisely this condition object. -/
theorem upsertCondition_spec (hashKey : String) (existing updated r : DRecord)
    (existingOpt : Option DRecord) (modified : DRecord) :
    ((evalCond r (upsertCondition hashKey (some existing) updated) = true) ↔
      ((∀ p ∈ existing, objLookup r p.1 = some p.2) ∧
       (∀ k ∈ updated.map Prod.fst, k ∉ existing.map Prod.fst →
          objLookup r k = none)))
    ∧ ((evalCond r (upsertCondition hashKey none updated) = true) ↔
        objLookup r hashKey = none)
    ∧ (upsertRequest hashKey existingOpt modified =
        serializeUpdate (objDelete modified hashKey)
          (some (upsertCondition hashKey existingOpt
            (objDelete modified hashKey)))) := by
  refine ⟨?_, ?_, rfl⟩
  · simp only [upsertCondition, evalCond, List.all_cons, List.all_nil,
               Bool.and_true, Bool.and_eq_true, evalOp, List.all_eq_true,
               decide_eq_true_iff, Option.isNone_iff_eq_none]
    constructor
    · rintro ⟨h1, h2⟩
      refine ⟨fun p hp => h1 p hp, fun k hk hnk => ?_⟩
      refine h2 k ?_
      rw [List.mem_filter]
      refine ⟨hk, ?_⟩
      simp only [Bool.not_eq_true', ← Bool.not_eq_true]
      intro hcontains
      exact hnk (by simpa using hcontains)
    · rintro ⟨h1, h2⟩
      refine ⟨fun p hp => h1 p hp, fun k hk => ?_⟩
      rw [List.mem_filter] at hk
      refine h2 k hk.1 ?_
      intro hmem
      have := hk.2
      simp [hmem] at this
  · simp [upsertCondition, evalCond, evalOp, Option.isNone_iff_eq_none]

/-- Concrete illustration of C1 (the hypotheses of the main theorem are
iff-free, so no witness is required): the write-time condition of an
upsert over an existing record equals the documented shape. -/
theorem upsertCondition_example :
    upsertCondition "id" (some [("id", DVal.s "1"), ("name", DVal.s "A")])
        [("name", DVal.s "B"), ("extra", DVal.n 3)] =
      Cond.base [CondOp.equals [("id", DVal.s "1"), ("name", DVal.s "A")],
                 CondOp.attributeNotExists ["extra"]] := by
  rfl

/-! ## C2 (corrected): only the hash key is stripped before the update -/

/-- Counterexample to C2 as stated: for the repository's own table schema
(hash `id`, range `createdAt`), an upsert whose modification returns the
range attribute leaves `createdAt` in the compiled `SET` assignment set —
the range key is not stripped. -/
theorem upsert_range_key_not_stripped :
    userTableKeys.range = some "createdAt" ∧
    "createdAt" ∈ upsertAssignmentKeys userTableKeys.hash
      [("id", DVal.s "u1"), ("createdAt", DVal.s "2024-01-01T00:00:00Z"),
       ("account", DVal.s "a")] ∧
    (upsertRequest userTableKeys.hash
        (some [("id", DVal.s "u1"), ("createdAt", DVal.s "2024-01-01T00:00:00Z"),
               ("account", DVal.s "a")])
        [("id", DVal.s "u1"), ("createdAt", DVal.s "2024-01-01T00:00:00Z"),
         ("account", DVal.s "b")]).UpdateExpression =
      "SET #createdAt = :ref3, #account = :ref4" := by
  refine ⟨rfl, by decide, by decide⟩

theorem objDelete_keys (m : List (String × DVal)) (k : String) :
    (objDelete m k).map Prod.fst = (m.map Prod.fst).erase k := by
  induction m with
  | nil => rfl
  | cons p rest ih =>
    obtain ⟨k', v⟩ := p
    by_cases hk : k' = k
    · subst hk
      simp [objDelete, List.erase_cons]
    · simp [objDelete, hk, List.erase_cons, ih]

/-- C2 amended: only the hash key attribute is stripped from the proposed
record before the update is compiled — the hash key never appears in the
compiled `SET` assignment set (for a well-formed record with distinct
attribute names), but a range key present in the proposed record is not
stripped (see the counterexample). -/
theorem upsert_strips_only_hash (hashKey : String) (modified : DRecord)
    (h : (modified.map Prod.fst).Nodup) :
    hashKey ∉ upsertAssignmentKeys hashKey modified ∧
    upsertAssignmentKeys hashKey modified = (modified.map Prod.fst).erase hashKey := by
  have hkeys : upsertAssignmentKeys hashKey modified =
      (modified.map Prod.fst).erase hashKey :=
    objDelete_keys modified hashKey
  refine ⟨?_, hkeys⟩
  rw [hkeys]
  intro hmem
  rcases (List.Nodup.mem_erase_iff h).mp hmem with ⟨hne, -⟩
  exact hne rfl

/-- Witness for the amended C2 at a concrete record. -/
theorem upsert_strips_only_hash_witness :
    (([("id", DVal.s "u1"), ("account", DVal.s "a")].map
        (Prod.fst (α := String) (β := DVal))).Nodup) ∧
    "id" ∉ upsertAssignmentKeys "id" [("id", DVal.s "u1"), ("account", DVal.s "a")] ∧
    upsertAssignmentKeys "id" [("id", DVal.s "u1"), ("account", DVal.s "a")] =
      (["id", "account"].erase "id") :=
  ⟨by decide,
   (upsert_strips_only_hash "id" [("id", DVal.s "u1"), ("account", DVal.s "a")]
     (by decide)).1,
   (upsert_strips_only_hash "id" [("id", DVal.s "u1"), ("account", DVal.s "a")]
     (by decide)).2⟩

/-! ## C4 infrastructure: JSON string escaping round trip -/

theorem hexVal_hexDigitChar {k : Nat} (h : k < 16) :
    hexVal (hexDigitChar k) = some k := by
  interval_cases k <;> decide

theorem parseJString_escapeList (s rest : List Char) :
    parseJString (escapeList s ++ ('"' :: rest)) = some (s, rest) := by
  induction s with
  | nil =>
    rw [escapeList, List.nil_append, parseJString.eq_def]
    simp
  | cons c cs ih =>
    rw [escapeList, List.append_assoc]
    by_cases h1 : c = '"'
    · subst h1
      rw [escapeChar, if_pos rfl]
      rw [show (['\\', '"'] : List Char) ++ (escapeList cs ++ ('"' :: rest)) =
          '\\' :: '"' :: (escapeList cs ++ ('"' :: rest)) from rfl]
      rw [parseJString.eq_def]
      simp [ih]
    · by_cases h2 : c = '\\'
      · subst h2
        rw [escapeChar, if_neg (by decide), if_pos rfl]
        rw [show (['\\', '\\'] : List Char) ++ (escapeList cs ++ ('"' :: rest)) =
            '\\' :: '\\' :: (escapeList cs ++ ('"' :: rest)) from rfl]
        rw [parseJString.eq_def]
        simp [ih]
      · by_cases h3 : c.toNat = 8
        · rw [escapeChar, if_neg h1, if_neg h2, if_pos h3]
          rw [show (['\\', 'b'] : List Char) ++ (escapeList cs ++ ('"' :: rest)) =
              '\\' :: 'b' :: (escapeList cs ++ ('"' :: rest)) from rfl]
          rw [parseJString.eq_def]
          have hc : c = Char.ofNat 8 := by
            rw [← Char.ofNat_toNat c, h3]
          rw [hc]
          simp [ih]
        · by_cases h4 : c.toNat = 9
          · rw [escapeChar, if_neg h1, if_neg h2, if_neg h3, if_pos h4]
            rw [show (['\\', 't'] : List Char) ++ (escapeList cs ++ ('"' :: rest)) =
                '\\' :: 't' :: (escapeList cs ++ ('"' :: rest)) from rfl]
            rw [parseJString.eq_def]
            have hc : c = Char.ofNat 9 := by
              rw [← Char.ofNat_toNat c, h4]
            rw [hc]
            simp [ih]
          · by_cases h5 : c.toNat = 10
            · rw [escapeChar, if_neg h1, if_neg h2, if_neg h3, if_neg h4, if_pos h5]
              rw [show (['\\', 'n'] : List Char) ++ (escapeList cs ++ ('"' :: rest)) =
                  '\\' :: 'n' :: (escapeList cs ++ ('"' :: rest)) from rfl]
              rw [parseJString.eq_def]
              have hc : c = Char.ofNat 10 := by
                rw [← Char.ofNat_toNat c, h5]
              rw [hc]
              simp [ih]
            · by_cases h6 : c.toNat = 12
              · rw [escapeChar, if_neg h1, if_neg h2, if_neg h3, if_neg h4,
                    if_neg h5, if_pos h6]
                rw [show (['\\', 'f'] : List Char) ++ (escapeList cs ++ ('"' :: rest)) =
                    '\\' :: 'f' :: (escapeList cs ++ ('"' :: rest)) from rfl]
                rw [parseJString.eq_def]
                have hc : c = Char.ofNat 12 := by
                  rw [← Char.ofNat_toNat c, h6]
                rw [hc]
                simp [ih]
              · by_cases h7 : c.toNat = 13
                · rw [escapeChar, if_neg h1, if_neg h2, if_neg h3, if_neg h4,
                      if_neg h5, if_neg h6, if_pos h7]
                  rw [show (['\\', 'r'] : List Char) ++ (escapeList cs ++ ('"' :: rest)) =
                      '\\' :: 'r' :: (escapeList cs ++ ('"' :: rest)) from rfl]
                  rw [parseJString.eq_def]
                  have hc : c = Char.ofNat 13 := by
                    rw [← Char.ofNat_toNat c, h7]
                  rw [hc]
                  simp [ih]
                · by_cases h8 : c.toNat < 32
                  · rw [escapeChar, if_neg h1, if_neg h2, if_neg h3, if_neg h4,
                        if_neg h5, if_neg h6, if_neg h7, if_pos h8]
                    rw [show (['\\', 'u', '0', '0', hexDigitChar (c.toNat / 16),
                          hexDigitChar (c.toNat % 16)] : List Char) ++
                          (escapeList cs ++ ('"' :: rest)) =
                        '\\' :: 'u' :: '0' :: '0' :: hexDigitChar (c.toNat / 16) ::
                          hexDigitChar (c.toNat % 16) ::
                          (escapeList cs ++ ('"' :: rest)) from rfl]
                    rw [parseJString.eq_def]
                    have hv1 : hexVal '0' = some 0 := by decide
                    have hv2 : hexVal (hexDigitChar (c.toNat / 16)) =
                        some (c.toNat / 16) := hexVal_hexDigitChar (by omega)
                    have hv3 : hexVal (hexDigitChar (c.toNat % 16)) =
                        some (c.toNat % 16) := hexVal_hexDigitChar (by omega)
                    simp only [hv1, hv2, hv3]
                    have hn : ((0 * 16 + 0) * 16 + c.toNat / 16) * 16 + c.toNat % 16 =
                        c.toNat := by omega
                    simp only [hn]
                    have hlt : c.toNat < 55296 ∨ 57343 < c.toNat := Or.inl (by omega)
                    simp [Char.ofNat_toNat, ih, hlt]
                  · rw [escapeChar, if_neg h1, if_neg h2, if_neg h3, if_neg h4,
                        if_neg h5, if_neg h6, if_neg h7, if_neg h8]
                    rw [show ([c] : List Char) ++ (escapeList cs ++ ('"' :: rest)) =
                        c :: (escapeList cs ++ ('"' :: rest)) from rfl]
                    rw [parseJString.eq_def]
                    simp [h1, h2, h8, ih]

/-! ## C4 infrastructure: number and scalar round trips -/

theorem parseJInt_intChars (i : Int) (rest : List Char)
    (hrest : ∀ c, rest.head? = some c → isDigitChar c = false) :
    parseJInt (intChars i ++ rest) = some (i, rest) := by
  by_cases hi : i < 0
  · rw [intChars, if_pos hi, List.cons_append, parseJInt]
    rw [if_pos rfl]
    rw [takeDigits_append_of_digits (natDigits i.natAbs) rest
        (natDigits_all_digits _) hrest]
    have hne : (natDigits i.natAbs).isEmpty = false := by
      cases h : natDigits i.natAbs with
      | nil => exact absurd h (natDigits_ne_nil _)
      | cons d ds => rfl
    simp only [hne, Bool.false_eq_true, if_false, digitsToNat_natDigits]
    have : -(i.natAbs : Int) = i := by omega
    rw [this]
  · rw [intChars, if_neg hi]
    cases hnd : natDigits i.toNat with
    | nil => exact absurd hnd (natDigits_ne_nil _)
    | cons d ds =>
      have hd : isDigitChar d = true := by
        have := natDigits_all_digits i.toNat d (by rw [hnd]; simp)
        exact this
      have hdm : ¬d = '-' := by
        intro h
        subst h
        simp [isDigitChar] at hd
      rw [List.cons_append, parseJInt, if_neg hdm]
      rw [← List.cons_append, ← hnd]
      rw [takeDigits_append_of_digits (natDigits i.toNat) rest
          (natDigits_all_digits _) hrest]
      have hne : (natDigits i.toNat).isEmpty = false := by
        cases h : natDigits i.toNat with
        | nil => exact absurd h (natDigits_ne_nil _)
        | cons d2 ds2 => rfl
      simp only [hne, Bool.false_eq_true, if_false, digitsToNat_natDigits]
      have : (i.toNat : Int) = i := by omega
      rw [this]

theorem parseJPrim_stringify (p : JPrim) (rest : List Char)
    (hrest : ∀ c, rest.head? = some c → isDigitChar c = false) :
    parseJPrim (stringifyJPrim p ++ rest) = some (p, rest) := by
  cases p with
  | s str =>
    rw [stringifyJPrim, List.cons_append, parseJPrim, if_pos rfl]
    rw [List.append_assoc]
    rw [show (['"'] : List Char) ++ rest = '"' :: rest from rfl]
    rw [parseJString_escapeList str.data rest]
    rfl
  | n i =>
    rw [stringifyJPrim]
    have hj := parseJInt_intChars i rest hrest
    by_cases hi : i < 0
    · rw [intChars, if_pos hi] at hj ⊢
      rw [List.cons_append] at hj ⊢
      rw [parseJPrim, if_neg (by decide), if_pos (Or.inl rfl), hj]
      rfl
    · rw [intChars, if_neg hi] at hj ⊢
      cases hnd : natDigits i.toNat with
      | nil => exact absurd hnd (natDigits_ne_nil _)
      | cons d ds =>
        have hd : isDigitChar d = true :=
          natDigits_all_digits i.toNat d (by rw [hnd]; simp)
        have hdq : ¬d = '"' := by
          intro h
          subst h
          simp [isDigitChar] at hd
        rw [hnd] at hj
        rw [List.cons_append] at hj ⊢
        rw [parseJPrim, if_neg hdq, if_pos (Or.inr hd), hj]
        rfl

/-! ## C4 infrastructure: cursor object round trip -/

theorem stringMk_data (k : String) : String.mk k.data = k := rfl

theorem parseEntries_stringify (cur : Cursor) (fuel : Nat) (rest : List Char)
    (hne : cur ≠ []) (hfuel : cur.length ≤ fuel) :
    parseEntries fuel (stringifyEntries cur ++ (rbrace :: rest)) =
      some (cur, rest) := by
  induction cur generalizing fuel rest with
  | nil => exact absurd rfl hne
  | cons e more ih =>
    obtain ⟨k, v⟩ := e
    cases fuel with
    | zero => simp at hfuel
    | succ fuel =>
      have hshape : ∀ X : List Char,
          stringifyEntry (k, v) ++ X =
            '"' :: (escapeList k.data ++
              ('"' :: (':' :: (stringifyJPrim v ++ X)))) := by
        intro X
        simp [stringifyEntry, List.cons_append, List.append_assoc]
      cases more with
      | nil =>
        rw [show stringifyEntries [(k, v)] = stringifyEntry (k, v) from rfl]
        rw [hshape (rbrace :: rest)]
        rw [parseEntries.eq_def]
        simp only [if_pos rfl]
        rw [parseJString_escapeList k.data (':' :: (stringifyJPrim v ++ rbrace :: rest))]
        simp only [if_pos rfl]
        rw [parseJPrim_stringify v (rbrace :: rest)
            (by intro c hc; simp at hc; rw [← hc]; decide)]
        simp [stringMk_data, rbrace]
      | cons e2 more2 =>
        rw [show stringifyEntries ((k, v) :: e2 :: more2) =
            stringifyEntry (k, v) ++ (',' :: stringifyEntries (e2 :: more2))
            from rfl]
        rw [List.append_assoc]
        rw [show (',' :: stringifyEntries (e2 :: more2)) ++ rbrace :: rest =
            ',' :: (stringifyEntries (e2 :: more2) ++ rbrace :: rest) from rfl]
        rw [hshape (',' :: (stringifyEntries (e2 :: more2) ++ rbrace :: rest))]
        rw [parseEntries.eq_def]
        simp only [if_pos rfl]
        rw [parseJString_escapeList k.data
            (':' :: (stringifyJPrim v ++
              ',' :: (stringifyEntries (e2 :: more2) ++ rbrace :: rest)))]
        simp only [if_pos rfl]
        rw [parseJPrim_stringify v
            (',' :: (stringifyEntries (e2 :: more2) ++ rbrace :: rest))
            (by intro c hc; simp at hc; rw [← hc]; decide)]
        simp only [if_pos rfl]
        rw [ih fuel rest (by simp) (by simpa using Nat.le_of_succ_le_succ hfuel)]
        simp [stringMk_data]

theorem stringifyEntries_length_le (cur : Cursor) :
    cur.length ≤ (stringifyEntries cur).length := by
  induction cur with
  | nil => simp [stringifyEntries]
  | cons e more ih =>
    cases more with
    | nil => simp [stringifyEntries, stringifyEntry]
    | cons e2 more2 =>
      rw [show stringifyEntries (e :: e2 :: more2) =
          stringifyEntry e ++ (',' :: stringifyEntries (e2 :: more2)) from rfl]
      simp only [List.length_append, List.length_cons]
      have h1 : 1 ≤ (stringifyEntry e).length := by
        obtain ⟨k, v⟩ := e
        simp [stringifyEntry]
      have ih' : more2.length + 1 ≤ (stringifyEntries (e2 :: more2)).length := by
        simpa using ih
      omega

theorem parseCursor_stringifyCursor (cur : Cursor) :
    parseCursor (stringifyCursor cur) = some cur := by
  cases cur with
  | nil => decide
  | cons e more =>
    obtain ⟨k, v⟩ := e
    have hstart : ∃ tail, stringifyEntries ((k, v) :: more) = '"' :: tail := by
      cases more with
      | nil => exact ⟨_, rfl⟩
      | cons e2 more2 => exact ⟨_, rfl⟩
    obtain ⟨tail, htail⟩ := hstart
    have hfuel : ((k, v) :: more).length ≤ (stringifyCursor ((k, v) :: more)).length := by
      have h := stringifyEntries_length_le ((k, v) :: more)
      simp only [stringifyCursor, List.length_cons, List.length_append,
                 List.length_singleton] at h ⊢
      omega
    have hentries := parseEntries_stringify ((k, v) :: more)
      (stringifyCursor ((k, v) :: more)).length [] (by simp) hfuel
    have hform : stringifyEntries ((k, v) :: more) ++ [rbrace] =
        '"' :: (tail ++ [rbrace]) := by
      rw [htail]
      rfl
    rw [show stringifyEntries ((k, v) :: more) ++ (rbrace :: ([] : List Char)) =
        stringifyEntries ((k, v) :: more) ++ [rbrace] from rfl] at hentries
    rw [stringifyCursor] at hentries ⊢
    rw [hform] at hentries ⊢
    rw [parseCursor.eq_def]
    simp only [rbrace, lbrace, List.length_cons, List.length_append,
               List.length_singleton, List.length_nil] at hentries ⊢
    simp [hentries]

/-! ## C4 infrastructure: UTF-8 round trip -/

theorem charValid (c : Char) :
    c.toNat < 55296 ∨ (57343 < c.toNat ∧ c.toNat < 1114112) := by
  have h := c.valid
  unfold UInt32.isValidChar Nat.isValidChar at h
  have e : c.toNat = c.val.toNat := rfl
  rw [e]
  exact h

theorem utf8EncodeChar_lt (c : Char) : ∀ b ∈ utf8EncodeChar c, b < 256 := by
  intro b hb
  have hv := charValid c
  have hv2 : c.toNat < 1114112 := by
    rcases hv with h | h
    · omega
    · omega
  simp only [utf8EncodeChar] at hb
  by_cases h1 : c.toNat < 128
  · rw [if_pos h1] at hb
    simp only [List.mem_singleton] at hb
    omega
  · rw [if_neg h1] at hb
    by_cases h2 : c.toNat < 2048
    · rw [if_pos h2] at hb
      simp only [List.mem_cons, List.mem_singleton, List.not_mem_nil, or_false] at hb
      rcases hb with rfl | rfl <;> omega
    · rw [if_neg h2] at hb
      by_cases h3 : c.toNat < 65536
      · rw [if_pos h3] at hb
        simp only [List.mem_cons, List.mem_singleton, List.not_mem_nil, or_false] at hb
        rcases hb with rfl | rfl | rfl <;> omega
      · rw [if_neg h3] at hb
        simp only [List.mem_cons, List.mem_singleton, List.not_mem_nil, or_false] at hb
        rcases hb with rfl | rfl | rfl | rfl <;> omega

set_option maxHeartbeats 2000000 in
theorem utf8Decode_utf8Encode (s : List Char) : utf8Decode (utf8Encode s) = some s := by
  induction s with
  | nil =>
    rw [show utf8Encode [] = [] from rfl]
    simp [utf8Decode]
  | cons c cs ih =>
    rw [utf8Encode]
    have hv := charValid c
    by_cases h1 : c.toNat < 128
    · simp only [utf8EncodeChar, if_pos h1, List.cons_append, List.nil_append]
      rw [utf8Decode.eq_def]
      simp [h1, ih, Char.ofNat_toNat]
    · by_cases h2 : c.toNat < 2048
      · simp only [utf8EncodeChar, if_neg h1, if_pos h2, List.cons_append,
                   List.nil_append]
        rw [utf8Decode.eq_def]
        have hA : ¬(192 + c.toNat / 64 < 128) := by omega
        have hB : ¬(192 + c.toNat / 64 < 192) := by omega
        have hC : 192 + c.toNat / 64 < 224 := by omega
        have hD1 : 128 ≤ 128 + c.toNat % 64 := by omega
        have hD2 : 128 + c.toNat % 64 < 192 := by omega
        have harith : c.toNat / 64 * 64 + c.toNat % 64 = c.toNat := by omega
        have hE : 128 ≤ c.toNat := by omega
        simp [hA, hB, hC, hD1, hD2, harith, hE, ih, Char.ofNat_toNat, utf8Dec2, List.tail_cons]
      · by_cases h3 : c.toNat < 65536
        · simp only [utf8EncodeChar, if_neg h1, if_neg h2, if_pos h3,
                     List.cons_append, List.nil_append]
          rw [utf8Decode.eq_def]
          have hA : ¬(224 + c.toNat / 4096 < 128) := by omega
          have hB : ¬(224 + c.toNat / 4096 < 192) := by omega
          have hC : ¬(224 + c.toNat / 4096 < 224) := by omega
          have hD : 224 + c.toNat / 4096 < 240 := by omega
          have hE1 : 128 ≤ 128 + c.toNat / 64 % 64 := by omega
          have hE2 : 128 + c.toNat / 64 % 64 < 192 := by omega
          have hF1 : 128 ≤ 128 + c.toNat % 64 := by omega
          have hF2 : 128 + c.toNat % 64 < 192 := by omega
          have harith : c.toNat / 4096 * 4096 + c.toNat / 64 % 64 * 64 +
              c.toNat % 64 = c.toNat := by omega
          have hG : 2048 ≤ c.toNat := by omega
          have hH : c.toNat < 55296 ∨ 57343 < c.toNat := by
            rcases hv with h | h
            · exact Or.inl h
            · exact Or.inr h.1
          simp [hA, hB, hC, hD, hE1, hE2, hF1, hF2, harith, hG, hH, ih,
                Char.ofNat_toNat, utf8Dec3, List.tail_cons]
        · simp only [utf8EncodeChar, if_neg h1, if_neg h2, if_neg h3,
                     List.cons_append, List.nil_append]
          rw [utf8Decode.eq_def]
          have hv2 : c.toNat < 1114112 := by
            rcases hv with h | h
            · omega
            · omega
          have hA : ¬(240 + c.toNat / 262144 < 128) := by omega
          have hB : ¬(240 + c.toNat / 262144 < 192) := by omega
          have hC : ¬(240 + c.toNat / 262144 < 224) := by omega
          have hD : ¬(240 + c.toNat / 262144 < 240) := by omega
          have hE : 240 + c.toNat / 262144 < 248 := by omega
          have hF1 : 128 ≤ 128 + c.toNat / 4096 % 64 := by omega
          have hF2 : 128 + c.toNat / 4096 % 64 < 192 := by omega
          have hG1 : 128 ≤ 128 + c.toNat / 64 % 64 := by omega
          have hG2 : 128 + c.toNat / 64 % 64 < 192 := by omega
          have hH1 : 128 ≤ 128 + c.toNat % 64 := by omega
          have hH2 : 128 + c.toNat % 64 < 192 := by omega
          have harith : c.toNat / 262144 * 262144 + c.toNat / 4096 % 64 * 4096 +
              c.toNat / 64 % 64 * 64 + c.toNat % 64 = c.toNat := by omega
          have hI : 65536 ≤ c.toNat := by omega
          simp [hA, hB, hC, hD, hE, hF1, hF2, hG1, hG2, hH1, hH2, harith, hI,
                hv2, ih, Char.ofNat_toNat, utf8Dec4, List.tail_cons]

/-! ## C4 infrastructure: base64 round trip -/

theorem b64Val_b64Char : ∀ n, n < 64 → b64Val (b64Char n) = some n := by
  decide

theorem b64Char_ne_pad : ∀ n, n < 64 → b64Char n ≠ '=' := by
  decide

theorem b64Decode_b64Encode_bounded :
    ∀ (n : Nat) (bs : List Nat), bs.length ≤ n → (∀ b ∈ bs, b < 256) →
      b64Decode (b64Encode bs) = some bs := by
  intro n
  induction n with
  | zero =>
    intro bs hlen h
    have : bs = [] := List.length_eq_zero.mp (Nat.le_zero.mp hlen)
    subst this
    rfl
  | succ n ih =>
    intro bs hlen h
    match bs with
    | [] => rfl
    | [a] =>
      have ha : a < 256 := h a (by simp)
      rw [b64Encode, b64Decode]
      rw [b64Val_b64Char (a / 4) (by omega), b64Val_b64Char (a % 4 * 16) (by omega)]
      have h0 : a % 4 * 16 % 16 = 0 := by omega
      have h1 : a / 4 * 4 + a % 4 * 16 / 16 = a := by omega
      simp [h0, h1]
      all_goals omega
    | [a, b] =>
      have ha : a < 256 := h a (by simp)
      have hb : b < 256 := h b (by simp)
      rw [b64Encode, b64Decode]
      rw [b64Val_b64Char (a / 4) (by omega),
          b64Val_b64Char (a % 4 * 16 + b / 16) (by omega)]
      have hne := b64Char_ne_pad (b % 16 * 4) (by omega)
      have hv3 := b64Val_b64Char (b % 16 * 4) (by omega)
      have h0 : b % 16 * 4 % 4 = 0 := by omega
      have h1 : a / 4 * 4 + (a % 4 * 16 + b / 16) / 16 = a := by omega
      have h2 : (a % 4 * 16 + b / 16) % 16 * 16 + b % 16 * 4 / 4 = b := by omega
      simp [hne, hv3, h0, h1, h2]
      all_goals omega
    | a :: b :: c :: rest =>
      have ha : a < 256 := h a (by simp)
      have hb : b < 256 := h b (by simp)
      have hc : c < 256 := h c (by simp)
      have hrest : ∀ x ∈ rest, x < 256 := fun x hx => h x (by simp [hx])
      have hlen2 : rest.length ≤ n := by
        simp only [List.length_cons] at hlen
        omega
      rw [b64Encode, b64Decode]
      rw [b64Val_b64Char (a / 4) (by omega),
          b64Val_b64Char (a % 4 * 16 + b / 16) (by omega)]
      have hne3 := b64Char_ne_pad (b % 16 * 4 + c / 64) (by omega)
      have hv3 := b64Val_b64Char (b % 16 * 4 + c / 64) (by omega)
      have hne4 := b64Char_ne_pad (c % 64) (by omega)
      have hv4 := b64Val_b64Char (c % 64) (by omega)
      have hihr := ih rest hlen2 hrest
      have h1 : a / 4 * 4 + (a % 4 * 16 + b / 16) / 16 = a := by omega
      have h2 : (a % 4 * 16 + b / 16) % 16 * 16 + (b % 16 * 4 + c / 64) / 4 = b := by
        omega
      have h3 : (b % 16 * 4 + c / 64) % 4 * 64 + c % 64 = c := by omega
      simp [hne3, hv3, hne4, hv4, hihr, h1, h2, h3]

theorem b64Decode_b64Encode (bs : List Nat) (h : ∀ b ∈ bs, b < 256) :
    b64Decode (b64Encode bs) = some bs :=
  b64Decode_b64Encode_bounded bs.length bs (Nat.le_refl _) h

theorem utf8Encode_lt (s : List Char) : ∀ b ∈ utf8Encode s, b < 256 := by
  induction s with
  | nil => simp [utf8Encode]
  | cons c cs ih =>
    intro b hb
    rw [utf8Encode, List.mem_append] at hb
    rcases hb with hb | hb
    · exact utf8EncodeChar_lt c b hb
    · exact ih b hb

theorem b64Encode_ne_nil (b : Nat) (rest : List Nat) : b64Encode (b :: rest) ≠ [] := by
  match rest with
  | [] => simp [b64Encode]
  | [x] => simp [b64Encode]
  | x :: y :: r => simp [b64Encode]

theorem utf8Encode_stringifyCursor_head (cur : Cursor) :
    ∃ tail, utf8Encode (stringifyCursor cur) = 123 :: tail :=
  ⟨_, rfl⟩

/-! ## C4: page-token round trip -/

/-- C4: for every representable continuation cursor `x`,
`PageToken.decode (PageToken.encode x)` recovers `x`; encoding an absent
cursor yields an absent token, and decoding an absent token yields an
absent cursor. -/
theorem pageToken_roundtrip (cur : Cursor) :
    pageTokenDecode (pageTokenEncode (some cur)) = .ok (some cur) ∧
    pageTokenEncode none = none ∧
    pageTokenDecode none = .ok none := by
  refine ⟨?_, rfl, rfl⟩
  obtain ⟨tailb, htail⟩ := utf8Encode_stringifyCursor_head cur
  have hne : b64Encode (utf8Encode (stringifyCursor cur)) ≠ [] := by
    rw [htail]
    exact b64Encode_ne_nil _ _
  have hemp : (b64Encode (utf8Encode (stringifyCursor cur))).isEmpty = false := by
    cases hx : b64Encode (utf8Encode (stringifyCursor cur)) with
    | nil => exact absurd hx hne
    | cons y ys => rfl
  have hb64 : b64Decode (b64Encode (utf8Encode (stringifyCursor cur))) =
      some (utf8Encode (stringifyCursor cur)) :=
    b64Decode_b64Encode _ (utf8Encode_lt _)
  rw [pageTokenEncode, pageTokenDecode]
  rw [show (String.mk (b64Encode (utf8Encode (stringifyCursor cur)))).data =
      b64Encode (utf8Encode (stringifyCursor cur)) from rfl]
  simp [hemp, hb64, utf8Decode_utf8Encode, parseCursor_stringifyCursor]
